import Mathlib

/-!
Verification of the hslpicker repository: a shallow embedding of the
`ColorConvert` static helpers and of the `HSLPicker` widget state machine.

Numbers in the source are JavaScript doubles; the embedding idealises them
as exact rationals (`ℚ`) for the pure conversion functions and as reals
(`ℝ`) for the picker geometry (which uses `Math.sqrt`, `Math.cos`,
`Math.sin`, `Math.atan2`).  `Math.round x` is `⌊x + 1/2⌋` (round half
towards positive infinity), which is JavaScript's behaviour on all finite
inputs.  Division is totalised with `x / 0 = 0` as usual in Lean; the one
place the source can divide by zero (`HSBToHSL`) models the resulting
JavaScript `NaN` test explicitly, see the comment there.
-/

/-- JavaScript `Math.round`: round half up, i.e. `⌊x + 1/2⌋`. -/
def jround (q : ℚ) : ℤ := ⌊q + 1/2⌋

theorem jround_le {q : ℚ} {n : ℤ} (h : q ≤ (n : ℚ)) : jround q ≤ n := by
  have hn : ⌊((n : ℚ) + 1/2)⌋ = n := by
    rw [Int.floor_int_add]
    norm_num
  calc jround q = ⌊q + 1/2⌋ := rfl
    _ ≤ ⌊((n : ℚ) + 1/2)⌋ := Int.floor_mono (by linarith)
    _ = n := hn

theorem le_jround {q : ℚ} {n : ℤ} (h : (n : ℚ) ≤ q) : n ≤ jround q := by
  have hn : ⌊((n : ℚ) + 1/2)⌋ = n := by
    rw [Int.floor_int_add]
    norm_num
  calc n = ⌊((n : ℚ) + 1/2)⌋ := hn.symm
    _ ≤ ⌊q + 1/2⌋ := Int.floor_mono (by linarith)
    _ = jround q := rfl

theorem jround_intCast (n : ℤ) : jround (n : ℚ) = n :=
  le_antisymm (jround_le le_rfl) (le_jround le_rfl)

/-- The rounding error of `Math.round` is at most `1/2` in absolute value. -/
theorem abs_jround_sub_le (q : ℚ) : |((jround q : ℤ) : ℚ) - q| ≤ 1/2 := by
  have h1 : ((⌊q + 1/2⌋ : ℤ) : ℚ) ≤ q + 1/2 := Int.floor_le _
  have h2 : q + 1/2 - 1 < ((⌊q + 1/2⌋ : ℤ) : ℚ) := Int.sub_one_lt_floor _
  rw [abs_le]
  constructor <;> [skip; skip] <;> simp only [jround] <;> linarith

namespace ColorConvert

/-- Embedding of `ColorConvert.RGBtoHSL` (src/unnamed/part_001, lines 371-402).
The JavaScript `switch (cMax)` tries `case r`, `case g`, `case b` in order;
since `cMax` is the maximum of the three channels it always matches one of
them, so the final `else` of the nested conditional below is exactly the
`case b` arm. -/
def RGBtoHSL (R G B : ℚ) : ℤ × ℤ × ℤ :=
  let r := R / 255
  let g := G / 255
  let b := B / 255
  let cMax := max r (max g b)
  let cMin := min r (min g b)
  let dC := cMax - cMin
  let L := (cMax + cMin) / 2
  let S : ℚ :=
    if cMax = cMin then 0
    else if L < 1/2 then (cMax - cMin) / (cMax + cMin)
    else (cMax - cMin) / (2 - cMax - cMin)
  let H : ℚ :=
    if cMax = cMin then 0
    else if cMax = r then (g - b) / dC
    else if cMax = g then 2 + (b - r) / dC
    else 4 + (r - g) / dC
  (jround (H * 60), jround (S * 100), jround (L * 100))

/-- Embedding of `ColorConvert.HSLToHSB` (src/unnamed/part_001, lines 410-430). -/
def HSLToHSB (H S L : ℚ) : ℚ × ℚ × ℚ :=
  let b := (2 * L + S * (1 - |2 * L - 1|)) / 2
  if b = 0 then (0, 0, 0)
  else (((jround (H * 60) : ℤ) : ℚ),
        ((jround (2 * (b - L) / b * 100) : ℤ) : ℚ),
        ((jround (b * 100) : ℤ) : ℚ))

/-- Embedding of `ColorConvert.HSBToHSL` (src/unnamed/part_001, lines 438-464).
In the source, `s = (B*S)/(1 - |2l - 1|)` is a JavaScript `NaN` exactly when
it is `0/0`, i.e. when the denominator is zero and `B*S = 0`; the guard
`isNaN(s)` is modelled by that conjunction.  (When the denominator is zero
with `B*S ≠ 0` JavaScript produces `Infinity`, which the guards do not
catch; Lean's totalised division returns `0` there.  Theorem `C8_guarded`
below shows this case is unreachable for `S, B ∈ [0,1]`.) -/
def HSBToHSL (H S B : ℚ) : ℚ × ℚ × ℚ :=
  let l := 1/2 * B * (2 - S)
  let s := B * S / (1 - |2 * l - 1|)
  if (S = 0 ∨ (1 - |2 * l - 1| = 0 ∧ B * S = 0)) ∧ B = 1 then (H * 60, 0, 100)
  else if (S = 0 ∨ (1 - |2 * l - 1| = 0 ∧ B * S = 0)) ∧ B = 0 then (H * 60, 0, 0)
  else (((jround (H * 60) : ℤ) : ℚ),
        ((jround (s * 100) : ℤ) : ℚ),
        ((jround (l * 100) : ℤ) : ℚ))

end ColorConvert

/-- C1: the claim says `RGBtoHSL` returns `h ∈ [0,360]` and in particular that
the rounded 6-sector hue is never negative.  This is false: on pure magenta
`(255, 0, 255)` the red channel is matched first by the `switch`, giving
`H = (g - b)/dC = -1` and hence `h = -60 < 0`. -/
theorem C1_counterexample :
    ColorConvert.RGBtoHSL 255 0 255 = (-60, 100, 50) ∧ ¬ (0 ≤ (-60 : ℤ)) := by
  constructor
  · norm_num [ColorConvert.RGBtoHSL, jround, max_def, min_def]
  · decide

/-- C1 (amended): for every integer triple `(r,g,b)` with each channel in
`[0,255]`, `ColorConvert.RGBtoHSL` returns `h` as an integer in `[-60,300]`
(the hue is negative exactly on the magenta-side sector where red is the
maximum channel and blue exceeds green), `s` as an integer in `[0,100]`, and
`l` as an integer in `[0,100]`. -/
theorem C1_range (r g b : ℤ)
    (hr0 : 0 ≤ r) (hr1 : r ≤ 255) (hg0 : 0 ≤ g) (hg1 : g ≤ 255)
    (hb0 : 0 ≤ b) (hb1 : b ≤ 255) :
    -60 ≤ (ColorConvert.RGBtoHSL r g b).1 ∧ (ColorConvert.RGBtoHSL r g b).1 ≤ 300 ∧
    0 ≤ (ColorConvert.RGBtoHSL r g b).2.1 ∧ (ColorConvert.RGBtoHSL r g b).2.1 ≤ 100 ∧
    0 ≤ (ColorConvert.RGBtoHSL r g b).2.2 ∧ (ColorConvert.RGBtoHSL r g b).2.2 ≤ 100 := by
  have hr1q : (r : ℚ) / 255 ≤ 1 := by
    rw [div_le_one (by norm_num : (0:ℚ) < 255)]
    exact_mod_cast hr1
  have hg1q : (g : ℚ) / 255 ≤ 1 := by
    rw [div_le_one (by norm_num : (0:ℚ) < 255)]
    exact_mod_cast hg1
  have hb1q : (b : ℚ) / 255 ≤ 1 := by
    rw [div_le_one (by norm_num : (0:ℚ) < 255)]
    exact_mod_cast hb1
  have hr0q : (0 : ℚ) ≤ (r : ℚ) / 255 := by positivity
  have hg0q : (0 : ℚ) ≤ (g : ℚ) / 255 := by positivity
  have hb0q : (0 : ℚ) ≤ (b : ℚ) / 255 := by positivity
  simp only [ColorConvert.RGBtoHSL]
  set rq : ℚ := (r : ℚ) / 255 with hrq
  set gq : ℚ := (g : ℚ) / 255 with hgq
  set bq : ℚ := (b : ℚ) / 255 with hbq
  set cMax : ℚ := max rq (max gq bq) with hcMax
  set cMin : ℚ := min rq (min gq bq) with hcMin
  have hminmax : cMin ≤ cMax := le_trans (min_le_left _ _) (le_max_left _ _)
  have hcMax1 : cMax ≤ 1 := max_le hr1q (max_le hg1q hb1q)
  have hcMin0 : (0 : ℚ) ≤ cMin := le_min hr0q (le_min hg0q hb0q)
  have hgle : gq ≤ cMax := le_trans (le_max_left _ _) (le_max_right _ _)
  have hble : bq ≤ cMax := le_trans (le_max_right _ _) (le_max_right _ _)
  have hrle : rq ≤ cMax := le_max_left _ _
  have hrge : cMin ≤ rq := min_le_left _ _
  have hgge : cMin ≤ gq := le_trans (min_le_right _ _) (min_le_left _ _)
  have hbge : cMin ≤ bq := le_trans (min_le_right _ _) (min_le_right _ _)
  split_ifs with h1 h2 h3 h4 h5 h6
  -- gray: H = 0, S = 0
  · refine ⟨le_jround ?_, jround_le ?_, le_jround ?_, jround_le ?_,
            le_jround ?_, jround_le ?_⟩ <;> push_cast <;> linarith
  all_goals have hlt : cMin < cMax := hminmax.lt_of_ne fun hEq => h1 hEq.symm
  all_goals have hdC : (0 : ℚ) < cMax - cMin := by linarith
  -- red is max: H = (g-b)/dC ∈ [-1,1]
  case pos =>
    have hH1 : (gq - bq) / (cMax - cMin) ≤ 1 := by
      rw [div_le_one hdC]; linarith
    have hH0 : (-1 : ℚ) ≤ (gq - bq) / (cMax - cMin) := by
      rw [le_div_iff₀ hdC]; linarith
    have hden : (0 : ℚ) < cMax + cMin := by linarith
    have hS1 : (cMax - cMin) / (cMax + cMin) ≤ 1 := by
      rw [div_le_one hden]; linarith
    have hS0 : (0 : ℚ) ≤ (cMax - cMin) / (cMax + cMin) :=
      div_nonneg (le_of_lt hdC) (le_of_lt hden)
    refine ⟨le_jround ?_, jround_le ?_, le_jround ?_, jround_le ?_,
            le_jround ?_, jround_le ?_⟩ <;> push_cast <;> linarith
  case neg =>
    have hH1 : (gq - bq) / (cMax - cMin) ≤ 1 := by
      rw [div_le_one hdC]; linarith
    have hH0 : (-1 : ℚ) ≤ (gq - bq) / (cMax - cMin) := by
      rw [le_div_iff₀ hdC]; linarith
    have hden : (0 : ℚ) < 2 - cMax - cMin := by linarith
    have hS1 : (cMax - cMin) / (2 - cMax - cMin) ≤ 1 := by
      rw [div_le_one hden]; linarith
    have hS0 : (0 : ℚ) ≤ (cMax - cMin) / (2 - cMax - cMin) :=
      div_nonneg (le_of_lt hdC) (le_of_lt hden)
    refine ⟨le_jround ?_, jround_le ?_, le_jround ?_, jround_le ?_,
            le_jround ?_, jround_le ?_⟩ <;> push_cast <;> linarith
  case pos =>
    have hH1 : (bq - rq) / (cMax - cMin) ≤ 1 := by
      rw [div_le_one hdC]; linarith
    have hH0 : (-1 : ℚ) ≤ (bq - rq) / (cMax - cMin) := by
      rw [le_div_iff₀ hdC]; linarith
    have hden : (0 : ℚ) < cMax + cMin := by linarith
    have hS1 : (cMax - cMin) / (cMax + cMin) ≤ 1 := by
      rw [div_le_one hden]; linarith
    have hS0 : (0 : ℚ) ≤ (cMax - cMin) / (cMax + cMin) :=
      div_nonneg (le_of_lt hdC) (le_of_lt hden)
    refine ⟨le_jround ?_, jround_le ?_, le_jround ?_, jround_le ?_,
            le_jround ?_, jround_le ?_⟩ <;> push_cast <;> linarith
  case neg =>
    have hH1 : (bq - rq) / (cMax - cMin) ≤ 1 := by
      rw [div_le_one hdC]; linarith
    have hH0 : (-1 : ℚ) ≤ (bq - rq) / (cMax - cMin) := by
      rw [le_div_iff₀ hdC]; linarith
    have hden : (0 : ℚ) < 2 - cMax - cMin := by linarith
    have hS1 : (cMax - cMin) / (2 - cMax - cMin) ≤ 1 := by
      rw [div_le_one hden]; linarith
    have hS0 : (0 : ℚ) ≤ (cMax - cMin) / (2 - cMax - cMin) :=
      div_nonneg (le_of_lt hdC) (le_of_lt hden)
    refine ⟨le_jround ?_, jround_le ?_, le_jround ?_, jround_le ?_,
            le_jround ?_, jround_le ?_⟩ <;> push_cast <;> linarith
  case pos =>
    have hH1 : (rq - gq) / (cMax - cMin) ≤ 1 := by
      rw [div_le_one hdC]; linarith
    have hH0 : (-1 : ℚ) ≤ (rq - gq) / (cMax - cMin) := by
      rw [le_div_iff₀ hdC]; linarith
    have hden : (0 : ℚ) < cMax + cMin := by linarith
    have hS1 : (cMax - cMin) / (cMax + cMin) ≤ 1 := by
      rw [div_le_one hden]; linarith
    have hS0 : (0 : ℚ) ≤ (cMax - cMin) / (cMax + cMin) :=
      div_nonneg (le_of_lt hdC) (le_of_lt hden)
    refine ⟨le_jround ?_, jround_le ?_, le_jround ?_, jround_le ?_,
            le_jround ?_, jround_le ?_⟩ <;> push_cast <;> linarith
  case neg =>
    have hH1 : (rq - gq) / (cMax - cMin) ≤ 1 := by
      rw [div_le_one hdC]; linarith
    have hH0 : (-1 : ℚ) ≤ (rq - gq) / (cMax - cMin) := by
      rw [le_div_iff₀ hdC]; linarith
    have hden : (0 : ℚ) < 2 - cMax - cMin := by linarith
    have hS1 : (cMax - cMin) / (2 - cMax - cMin) ≤ 1 := by
      rw [div_le_one hden]; linarith
    have hS0 : (0 : ℚ) ≤ (cMax - cMin) / (2 - cMax - cMin) :=
      div_nonneg (le_of_lt hdC) (le_of_lt hden)
    refine ⟨le_jround ?_, jround_le ?_, le_jround ?_, jround_le ?_,
            le_jround ?_, jround_le ?_⟩ <;> push_cast <;> linarith

/-- C6: the degenerate-case equations hold exactly, for every rational hue
`h` (in 60ths units) and saturation `s`:
`HSBToHSL h 0 1 = (h*60, 0, 100)`, `HSBToHSL h 0 0 = (h*60, 0, 0)`, and
`HSLToHSB h s 0 = (0, 0, 0)`. -/
theorem C6_degenerate (h s : ℚ) :
    ColorConvert.HSBToHSL h 0 1 = (h * 60, 0, 100) ∧
    ColorConvert.HSBToHSL h 0 0 = (h * 60, 0, 0) ∧
    ColorConvert.HSLToHSB h s 0 = (0, 0, 0) := by
  refine ⟨?_, ?_, ?_⟩
  · norm_num [ColorConvert.HSBToHSL]
  · norm_num [ColorConvert.HSBToHSL]
  · norm_num [ColorConvert.HSLToHSB]

/-- Shared helper: for `S, B ∈ [0,1]`, whenever neither of the two degenerate
branch conditions of `HSBToHSL` holds, the divisor `1 - |2l - 1|` of the
saturation formula is strictly positive. -/
theorem hsbDivisorPos (S B : ℚ)
    (hS0 : 0 ≤ S) (hS1 : S ≤ 1) (hB0 : 0 ≤ B) (hB1 : B ≤ 1)
    (h1 : ¬ ((S = 0 ∨ (1 - |2 * (1/2 * B * (2 - S)) - 1| = 0 ∧ B * S = 0)) ∧ B = 1))
    (h2 : ¬ ((S = 0 ∨ (1 - |2 * (1/2 * B * (2 - S)) - 1| = 0 ∧ B * S = 0)) ∧ B = 0)) :
    0 < 1 - |2 * (1/2 * B * (2 - S)) - 1| := by
  have habs : |2 * (1/2 * B * (2 - S)) - 1| ≤ 1 :=
    abs_le.mpr ⟨by nlinarith, by nlinarith⟩
  rcases eq_or_lt_of_le (show |2 * (1/2 * B * (2 - S)) - 1| ≤ 1 from habs)
    with heq | hlt
  · exfalso
    rcases abs_eq (show (0:ℚ) ≤ 1 by norm_num) |>.mp heq with hpos | hneg
    · -- l = 1  ⇒  B = 1 and S = 0: the white branch would have fired
      have hS0e : S = 0 := le_antisymm (by nlinarith) hS0
      have hB1e : B = 1 := by nlinarith
      exact h1 ⟨Or.inl hS0e, hB1e⟩
    · -- l = 0  ⇒  B = 0: the black branch would have fired
      have hB0e : B = 0 := by nlinarith
      refine h2 ⟨Or.inr ⟨by rw [heq]; ring, by rw [hB0e]; ring⟩, hB0e⟩
  · linarith

/-- C8: for `S, B ∈ [0,1]` the division by `1 - |2l - 1|` in `HSBToHSL` is
guarded: either that divisor is nonzero, or the input is caught by one of the
two explicit degenerate branches and the function returns canonical white or
canonical black, so no NaN ever reaches the final return. -/
theorem C8_guarded (H S B : ℚ)
    (hS0 : 0 ≤ S) (hS1 : S ≤ 1) (hB0 : 0 ≤ B) (hB1 : B ≤ 1) :
    1 - |2 * (1/2 * B * (2 - S)) - 1| ≠ 0 ∨
    ColorConvert.HSBToHSL H S B = (H * 60, 0, 100) ∨
    ColorConvert.HSBToHSL H S B = (H * 60, 0, 0) := by
  by_cases hc1 : (S = 0 ∨ (1 - |2 * (1/2 * B * (2 - S)) - 1| = 0 ∧ B * S = 0)) ∧ B = 1
  · right
    left
    simp only [ColorConvert.HSBToHSL]
    rw [if_pos hc1]
  by_cases hc2 : (S = 0 ∨ (1 - |2 * (1/2 * B * (2 - S)) - 1| = 0 ∧ B * S = 0)) ∧ B = 0
  · right
    right
    simp only [ColorConvert.HSBToHSL]
    rw [if_neg hc1, if_pos hc2]
  · exact Or.inl (ne_of_gt (hsbDivisorPos S B hS0 hS1 hB0 hB1 hc1 hc2))

/-- C9: `HSLToHSB` maps `S, L ∈ [0,1]` (any hue) to saturation and brightness
percentages in `[0,100]`, and `HSBToHSL` maps `S, B ∈ [0,1]` to saturation and
lightness percentages in `[0,100]`; these are the values the square renderer
interpolates into CSS `hsl()` strings. -/
theorem C9_percent_range (H S L B : ℚ)
    (hS0 : 0 ≤ S) (hS1 : S ≤ 1) (hL0 : 0 ≤ L) (hL1 : L ≤ 1)
    (hB0 : 0 ≤ B) (hB1 : B ≤ 1) :
    (0 ≤ (ColorConvert.HSLToHSB H S L).2.1 ∧ (ColorConvert.HSLToHSB H S L).2.1 ≤ 100 ∧
     0 ≤ (ColorConvert.HSLToHSB H S L).2.2 ∧ (ColorConvert.HSLToHSB H S L).2.2 ≤ 100) ∧
    (0 ≤ (ColorConvert.HSBToHSL H S B).2.1 ∧ (ColorConvert.HSBToHSL H S B).2.1 ≤ 100 ∧
     0 ≤ (ColorConvert.HSBToHSL H S B).2.2 ∧ (ColorConvert.HSBToHSL H S B).2.2 ≤ 100) := by
  constructor
  · -- HSLToHSB
    rw [ColorConvert.HSLToHSB]
    have habs : |2 * L - 1| ≤ 1 := abs_le.mpr ⟨by linarith, by linarith⟩
    have habs0 : 0 ≤ 1 - |2 * L - 1| := by linarith
    have hbL : L ≤ (2 * L + S * (1 - |2 * L - 1|)) / 2 := by
      nlinarith [mul_nonneg hS0 habs0]
    have hb0 : 0 ≤ (2 * L + S * (1 - |2 * L - 1|)) / 2 := by
      nlinarith [mul_nonneg hS0 habs0]
    have hb1 : (2 * L + S * (1 - |2 * L - 1|)) / 2 ≤ 1 := by
      rcases abs_cases (2 * L - 1) with ⟨he, hc⟩ | ⟨he, hc⟩ <;> rw [he] <;> nlinarith
    have hb2L : (2 * L + S * (1 - |2 * L - 1|)) / 2 ≤ 2 * L := by
      rcases abs_cases (2 * L - 1) with ⟨he, hc⟩ | ⟨he, hc⟩ <;> rw [he] <;> nlinarith
    split_ifs with hz
    · norm_num
    · have hbpos : 0 < (2 * L + S * (1 - |2 * L - 1|)) / 2 :=
        lt_of_le_of_ne hb0 (Ne.symm hz)
      have hs0 : (0 : ℚ) ≤ 2 * ((2 * L + S * (1 - |2 * L - 1|)) / 2 - L) /
          ((2 * L + S * (1 - |2 * L - 1|)) / 2) := by
        apply div_nonneg _ (le_of_lt hbpos)
        linarith
      have hs1 : 2 * ((2 * L + S * (1 - |2 * L - 1|)) / 2 - L) /
          ((2 * L + S * (1 - |2 * L - 1|)) / 2) ≤ 1 := by
        rw [div_le_one hbpos]
        linarith
      dsimp only
      refine ⟨?_, ?_, ?_, ?_⟩
      · exact_mod_cast le_jround (by push_cast; linarith)
      · exact_mod_cast jround_le (q := 2 * ((2 * L + S * (1 - |2 * L - 1|)) / 2 - L) /
          ((2 * L + S * (1 - |2 * L - 1|)) / 2) * 100) (by push_cast; linarith)
      · exact_mod_cast le_jround (by push_cast; linarith)
      · exact_mod_cast jround_le (q := (2 * L + S * (1 - |2 * L - 1|)) / 2 * 100)
          (by push_cast; linarith)
  · -- HSBToHSL
    rw [ColorConvert.HSBToHSL]
    have hl0 : (0 : ℚ) ≤ 1/2 * B * (2 - S) := by nlinarith
    have hl1 : 1/2 * B * (2 - S) ≤ 1 := by nlinarith
    split_ifs with hw hk
    · norm_num
    · norm_num
    · -- final branch: divisor is positive
      have hdiv : 0 < 1 - |2 * (1/2 * B * (2 - S)) - 1| :=
        hsbDivisorPos S B hS0 hS1 hB0 hB1 hw hk
      have hs0 : (0 : ℚ) ≤ B * S / (1 - |2 * (1/2 * B * (2 - S)) - 1|) :=
        div_nonneg (mul_nonneg hB0 hS0) (le_of_lt hdiv)
      have hs1 : B * S / (1 - |2 * (1/2 * B * (2 - S)) - 1|) ≤ 1 := by
        rw [div_le_one hdiv]
        rcases abs_cases (2 * (1/2 * B * (2 - S)) - 1) with ⟨he, hc⟩ | ⟨he, hc⟩ <;>
          rw [he] <;> nlinarith
      dsimp only
      refine ⟨?_, ?_, ?_, ?_⟩
      · exact_mod_cast le_jround (by push_cast; linarith)
      · exact_mod_cast jround_le
          (q := B * S / (1 - |2 * (1/2 * B * (2 - S)) - 1|) * 100) (by push_cast; linarith)
      · exact_mod_cast le_jround (by push_cast; linarith)
      · exact_mod_cast jround_le (q := 1/2 * B * (2 - S) * 100) (by push_cast; linarith)

/-- Closed witness for C8 at a concrete interior input. -/
theorem C8_guarded_witness :
    (0 : ℚ) ≤ 1/2 ∧ (1/2 : ℚ) ≤ 1 ∧
    (1 - |2 * (1/2 * (1/2 : ℚ) * (2 - 1/2)) - 1| ≠ 0 ∨
     ColorConvert.HSBToHSL 0 (1/2) (1/2) = (0 * 60, 0, 100) ∨
     ColorConvert.HSBToHSL 0 (1/2) (1/2) = (0 * 60, 0, 0)) :=
  ⟨by norm_num, by norm_num,
    C8_guarded 0 (1/2) (1/2) (by norm_num) (by norm_num) (by norm_num) (by norm_num)⟩

namespace ColorConvert

/-- JavaScript `hex.replace('#','')`: remove the first occurrence of a
character (anywhere in the string, not only leading). -/
def replaceFirst (c : Char) : List Char → List Char
  | [] => []
  | x :: xs => if x = c then xs else x :: replaceFirst c xs

/-- The value of a hexadecimal digit, or `none` for any other character. -/
def hexDigitVal (c : Char) : Option ℤ :=
  if '0' ≤ c ∧ c ≤ '9' then some ((c.toNat : ℤ) - 48)
  else if 'a' ≤ c ∧ c ≤ 'f' then some ((c.toNat : ℤ) - 87)
  else if 'A' ≤ c ∧ c ≤ 'F' then some ((c.toNat : ℤ) - 55)
  else none

/-- Accumulate the longest leading run of hexadecimal digits. -/
def hexAccum : List Char → ℤ → ℤ
  | [], acc => acc
  | c :: cs, acc =>
    match hexDigitVal c with
    | some d => hexAccum cs (16 * acc + d)
    | none => acc

/-- JavaScript `parseInt(s, 16)`: skip leading whitespace, read an optional
sign and an optional `0x`/`0X` prefix, then parse the longest leading run of
hexadecimal digits; the result is `NaN` (here `none`) when no digit follows. -/
def parseIntSixteen (l : List Char) : Option ℤ :=
  let l1 := l.dropWhile fun c => c.isWhitespace
  let signAndRest : Bool × List Char :=
    match l1 with
    | '-' :: rest => (true, rest)
    | '+' :: rest => (false, rest)
    | _ => (false, l1)
  let l3 : List Char :=
    match signAndRest.2 with
    | '0' :: 'x' :: rest => rest
    | '0' :: 'X' :: rest => rest
    | _ => signAndRest.2
  match l3 with
  | [] => none
  | c :: _ =>
    match hexDigitVal c with
    | none => none
    | some _ => some ((if signAndRest.1 then -1 else 1) * hexAccum l3 0)

/-- Embedding of `ColorConvert.HexToRGB` (src/unnamed/part_001, lines
470-477): strip the first `#`, then parse `substring(0,2)`, `substring(2,4)`,
`substring(4,6)` as base-16 integers (`none` models a `NaN` channel). -/
def HexToRGB (hex : List Char) : Option ℤ × Option ℤ × Option ℤ :=
  let h := replaceFirst '#' hex
  (parseIntSixteen (h.take 2),
   parseIntSixteen ((h.drop 2).take 2),
   parseIntSixteen ((h.drop 4).take 2))

end ColorConvert

/-- C5: the claim says every input with fewer than 6 hex digits after
stripping a leading `#` yields a NaN channel.  False: the 5-character string
`"abcde"` parses to the fully numeric triple `(171, 205, 14)`, because
`substring(4,6)` is the single digit `"e"` and `parseInt` accepts it. -/
theorem C5_counterexample :
    ColorConvert.HexToRGB (['a', 'b', 'c', 'd', 'e']) =
      (some 171, some 205, some 14) := by
  decide

/-- C5 (amended): for every input string with at most 4 characters remaining
after stripping the first `#`, `HexToRGB` returns a NaN blue channel (the
`substring(4,6)` slice is empty, and `parseInt` of an empty string is NaN);
with exactly 5 remaining characters the result can be fully numeric. -/
theorem C5_short_nan (l : List Char)
    (h : (ColorConvert.replaceFirst '#' l).length ≤ 4) :
    (ColorConvert.HexToRGB l).2.2 = none := by
  simp only [ColorConvert.HexToRGB]
  have hdrop : (ColorConvert.replaceFirst '#' l).drop 4 = [] :=
    List.drop_eq_nil_of_le h
  rw [hdrop]
  rfl

/-- Closed witness for C5 (amended) on the 3-character input `"#ab"`. -/
theorem C5_short_nan_witness :
    (ColorConvert.replaceFirst '#' (['#', 'a', 'b'])).length ≤ 4 ∧
    (ColorConvert.HexToRGB (['#', 'a', 'b'])).2.2 = none :=
  ⟨by decide, C5_short_nan (['#', 'a', 'b']) (by decide)⟩

/-- Closed witness for C1 (amended) at the concrete triple `(10, 20, 30)`. -/
theorem C1_range_witness :
    ((0:ℤ) ≤ 10 ∧ (10:ℤ) ≤ 255 ∧ (0:ℤ) ≤ 20 ∧ (20:ℤ) ≤ 255 ∧
     (0:ℤ) ≤ 30 ∧ (30:ℤ) ≤ 255) ∧
    (-60 ≤ (ColorConvert.RGBtoHSL 10 20 30).1 ∧
     (ColorConvert.RGBtoHSL 10 20 30).1 ≤ 300 ∧
     0 ≤ (ColorConvert.RGBtoHSL 10 20 30).2.1 ∧
     (ColorConvert.RGBtoHSL 10 20 30).2.1 ≤ 100 ∧
     0 ≤ (ColorConvert.RGBtoHSL 10 20 30).2.2 ∧
     (ColorConvert.RGBtoHSL 10 20 30).2.2 ≤ 100) :=
  ⟨by norm_num,
   C1_range 10 20 30 (by norm_num) (by norm_num) (by norm_num) (by norm_num)
     (by norm_num) (by norm_num)⟩

/-- Closed witness for C9 at the concrete input `H = 0`, `S = L = B = 1/2`. -/
theorem C9_percent_range_witness :
    ((0:ℚ) ≤ 1/2 ∧ (1/2:ℚ) ≤ 1) ∧
    ((0 ≤ (ColorConvert.HSLToHSB 0 (1/2) (1/2)).2.1 ∧
      (ColorConvert.HSLToHSB 0 (1/2) (1/2)).2.1 ≤ 100 ∧
      0 ≤ (ColorConvert.HSLToHSB 0 (1/2) (1/2)).2.2 ∧
      (ColorConvert.HSLToHSB 0 (1/2) (1/2)).2.2 ≤ 100) ∧
     (0 ≤ (ColorConvert.HSBToHSL 0 (1/2) (1/2)).2.1 ∧
      (ColorConvert.HSBToHSL 0 (1/2) (1/2)).2.1 ≤ 100 ∧
      0 ≤ (ColorConvert.HSBToHSL 0 (1/2) (1/2)).2.2 ∧
      (ColorConvert.HSBToHSL 0 (1/2) (1/2)).2.2 ≤ 100)) :=
  ⟨⟨by norm_num, by norm_num⟩,
   C9_percent_range 0 (1/2) (1/2) (1/2) (by norm_num) (by norm_num) (by norm_num)
     (by norm_num) (by norm_num) (by norm_num)⟩

namespace HSLPicker

/-- The mutable fields of an `HSLPicker` instance (src/unnamed/part_001,
lines 12-104).  Canvas/DOM handles are omitted: drawing writes pixels only
and never writes these fields. -/
structure State where
  radius : ℝ
  hue : ℝ
  ox : ℝ
  oy : ℝ
  ix : ℝ
  iy : ℝ
  outerActive : Bool
  innerActive : Bool

/-- Diameter of the hue ring: `this.ringsize = radius / 5`. -/
noncomputable def ringsize (radius : ℝ) : ℝ := radius / 5

/-- Side of the inner square: `Math.sqrt(2) * (radius - ringsize)`. -/
noncomputable def squareLength (radius : ℝ) : ℝ :=
  Real.sqrt 2 * (radius - ringsize radius)

/-- JavaScript `Math.round` on reals. -/
noncomputable def jroundR (x : ℝ) : ℝ := ((⌊x + 1/2⌋ : ℤ) : ℝ)

/-- `redraw` repaints the canvas; it reads but never writes picker fields. -/
def redraw (st : State) : State := st

/-- Embedding of `HSLPicker.setHue` (lines 124-137): store the angle in
degrees, adding 360 once if negative, and recompute the ring indicator. -/
noncomputable def setHue (angle : ℝ) (st : State) : State :=
  let hue0 := angle * (180 / Real.pi)
  let hue1 := if hue0 < 0 then hue0 + 360 else hue0
  let ringMiddle := st.radius - ringsize st.radius / 2
  redraw { st with
    hue := hue1,
    ox := Real.cos angle * ringMiddle + st.radius,
    oy := Real.sin angle * ringMiddle + st.radius }

/-- Embedding of `HSLPicker._setIXY` (lines 342-360): clamp with a 1-pixel
inset on the far side of each branch, then round to integer pixels. -/
noncomputable def setIXY (x y : ℝ) (st : State) : State :=
  let half := squareLength st.radius / 2
  let ix1 := if x - st.radius > 0 then min x (st.radius + half) - 1
             else max x (st.radius - half) + 1
  let iy1 := if y - st.radius > 0 then min y (st.radius + half) - 1
             else max y (st.radius - half) + 1
  { st with ix := jroundR ix1, iy := jroundR iy1 }

/-- Embedding of `HSLPicker.updateInner` (lines 205-209). -/
noncomputable def updateInner (x y : ℝ) (st : State) : State :=
  redraw (setIXY x y st)

/-- `Math.atan2 y x`, the argument of the complex number `x + iy`. -/
noncomputable def atan2 (y x : ℝ) : ℝ := Complex.arg ⟨x, y⟩

/-- Embedding of `HSLPicker.updateOuter` (lines 194-199). -/
noncomputable def updateOuter (x y : ℝ) (st : State) : State :=
  setHue (atan2 (y - st.radius) (x - st.radius)) st

/-- Embedding of `HSLPicker.setColor` (lines 153-167). -/
noncomputable def setColor (r g b : ℚ) (st : State) : State :=
  let hsl := ColorConvert.RGBtoHSL r g b
  let hsv := ColorConvert.HSLToHSB ((hsl.1 : ℚ) / 60) ((hsl.2.1 : ℚ) / 100)
    ((hsl.2.2 : ℚ) / 100)
  let st1 := setHue (((hsv.1 : ℚ) : ℝ) * Real.pi / 180) st
  let x := st.radius - squareLength st.radius / 2 +
    squareLength st.radius * (((hsv.2.1 : ℚ) : ℝ) / 100)
  let y := st.radius + squareLength st.radius / 2 -
    squareLength st.radius * (((hsv.2.2 : ℚ) : ℝ) / 100)
  redraw (setIXY x y st1)

/-- Embedding of the constructor (lines 12-104): fields are initialised with
`ix = iy = radius`, both drag flags false, then `setHue(hue * π/180)` runs. -/
noncomputable def init (radius hue : ℝ) : State :=
  setHue (hue * (Real.pi / 180))
    { radius := radius, hue := hue, ox := 0, oy := 0,
      ix := radius, iy := radius, outerActive := false, innerActive := false }

/-- Pointer events delivered to the constructor's `mDown`/`mMove`/`mUp`
handlers, already normalised to canvas coordinates. -/
inductive PEvent where
  | press (x y : ℝ)
  | move (x y : ℝ)
  | release

/-- One step of the pointer state machine (constructor lines 56-96).  On a
press both region tests run independently, exactly as in the source. -/
noncomputable def pstep (st : State) (e : PEvent) : State :=
  match e with
  | .press x y =>
    let dist := Real.sqrt ((st.radius - x)^2 + (st.radius - y)^2)
    let stA := if dist < st.radius ∧ dist > st.radius - ringsize st.radius
      then updateOuter x y { st with outerActive := true }
      else st
    if dist < squareLength st.radius / 2
      then updateInner x y { stA with innerActive := true }
      else stA
  | .move x y =>
    if st.outerActive = true then updateOuter x y st
    else if st.innerActive = true then updateInner x y st
    else st
  | .release => { st with innerActive := false, outerActive := false }

/-- Run a pointer-event trace from a freshly constructed picker. -/
noncomputable def runPointer (radius hue : ℝ) (l : List PEvent) : State :=
  l.foldl pstep (init radius hue)

/-- Events that write the inner-selection coordinates: square drags
(`updateInner`) and programmatic `setColor` calls. -/
inductive InnerEvent where
  | point (x y : ℝ)
  | color (r g b : ℚ)

/-- Apply one inner-selection event. -/
noncomputable def innerStep (st : State) (e : InnerEvent) : State :=
  match e with
  | .point x y => updateInner x y st
  | .color r g b => setColor r g b st

/-- Run a trace of inner-selection events from a fresh picker. -/
noncomputable def runInner (radius hue : ℝ) (l : List InnerEvent) : State :=
  l.foldl innerStep (init radius hue)

end HSLPicker

/-- C10: `setHue` (and hence `updateOuter`, the ring-drag handler) writes only
`hue`, `ox` and `oy`: the inner-selection coordinates `ix`, `iy` (as well as
the radius and both drag flags) are unchanged by every `setHue` and every
`updateOuter` call. -/
theorem C10_frame (st : HSLPicker.State) (angle x y : ℝ) :
    (HSLPicker.setHue angle st).ix = st.ix ∧
    (HSLPicker.setHue angle st).iy = st.iy ∧
    (HSLPicker.setHue angle st).radius = st.radius ∧
    (HSLPicker.setHue angle st).outerActive = st.outerActive ∧
    (HSLPicker.setHue angle st).innerActive = st.innerActive ∧
    (HSLPicker.updateOuter x y st).ix = st.ix ∧
    (HSLPicker.updateOuter x y st).iy = st.iy ∧
    (HSLPicker.updateOuter x y st).radius = st.radius ∧
    (HSLPicker.updateOuter x y st).outerActive = st.outerActive ∧
    (HSLPicker.updateOuter x y st).innerActive = st.innerActive :=
  ⟨rfl, rfl, rfl, rfl, rfl, rfl, rfl, rfl, rfl, rfl⟩

/-- Single-call helper for C3: `setHue` lands in `[0,360)` whenever the angle
argument lies in `[-2π, 2π)` — which covers every `atan2` result. -/
theorem setHue_mem_Ico (st : HSLPicker.State) (a : ℝ)
    (h0 : -(2 * Real.pi) ≤ a) (h1 : a < 2 * Real.pi) :
    (HSLPicker.setHue a st).hue ∈ Set.Ico (0 : ℝ) 360 := by
  have hpi : 0 < Real.pi := Real.pi_pos
  have hc : 0 < 180 / Real.pi := by positivity
  have hlow : -360 ≤ a * (180 / Real.pi) := by
    have := mul_le_mul_of_nonneg_right h0 (le_of_lt hc)
    have he : -(2 * Real.pi) * (180 / Real.pi) = -360 := by
      field_simp
      ring
    linarith [he ▸ this]
  have hhigh : a * (180 / Real.pi) < 360 := by
    have := mul_lt_mul_of_pos_right h1 hc
    have he : 2 * Real.pi * (180 / Real.pi) = 360 := by
      field_simp
      ring
    linarith [he ▸ this]
  simp only [HSLPicker.setHue, HSLPicker.redraw]
  split_ifs with hneg
  · exact ⟨by linarith, by linarith⟩
  · exact ⟨by linarith, hhigh⟩

/-- C3: the claim quantifies over arbitrary real radian arguments; it is
false for angles of magnitude `2π` or more, which the single
`if (hue < 0) hue += 360` does not wrap: `setHue(4π)` stores `hue = 720`. -/
theorem C3_counterexample :
    (HSLPicker.setHue (4 * Real.pi) (HSLPicker.init 200 0)).hue = 720 ∧
    (720 : ℝ) ∉ Set.Ico (0 : ℝ) 360 := by
  constructor
  · have hpi := Real.pi_ne_zero
    have h720 : 4 * Real.pi * (180 / Real.pi) = 720 := by
      field_simp
      ring
    simp only [HSLPicker.setHue, HSLPicker.redraw]
    rw [if_neg (by rw [h720]; norm_num)]
    exact h720
  · intro hmem
    have := hmem.2
    norm_num at this

/-- C3 (amended): after any nonempty sequence of `setHue` calls whose radian
arguments all lie in `[-2π, 2π)` — in particular any argument produced by
`atan2`, and any sequence of ring drags — the stored hue is in `[0, 360)`. -/
theorem C3_hue_range (st : HSLPicker.State) (l : List ℝ) (hne : l ≠ [])
    (hl : ∀ a ∈ l, -(2 * Real.pi) ≤ a ∧ a < 2 * Real.pi) :
    (l.foldl (fun s a => HSLPicker.setHue a s) st).hue ∈ Set.Ico (0 : ℝ) 360 := by
  induction l generalizing st with
  | nil => exact absurd rfl hne
  | cons a t ih =>
    rcases t with _ | ⟨b, t2⟩
    · have ha := hl a (List.mem_cons_self a [])
      simpa using setHue_mem_Ico st a ha.1 ha.2
    · rw [List.foldl_cons]
      exact ih (HSLPicker.setHue a st) (List.cons_ne_nil b t2)
        (fun c hc => hl c (List.mem_cons_of_mem a hc))

/-- Closed witness for C3 (amended): the one-call trace `[0]`. -/
theorem C3_hue_range_witness :
    (([(0 : ℝ)] ≠ []) ∧ ∀ a ∈ [(0 : ℝ)], -(2 * Real.pi) ≤ a ∧ a < 2 * Real.pi) ∧
    (([(0 : ℝ)]).foldl (fun s a => HSLPicker.setHue a s)
        (HSLPicker.init 1 0)).hue ∈ Set.Ico (0 : ℝ) 360 := by
  have hp := Real.pi_pos
  have hmem : ∀ a ∈ [(0 : ℝ)], -(2 * Real.pi) ≤ a ∧ a < 2 * Real.pi := by
    intro a ha
    simp only [List.mem_singleton] at ha
    subst ha
    constructor <;> nlinarith
  exact ⟨⟨by simp, hmem⟩,
    C3_hue_range (HSLPicker.init 1 0) [(0 : ℝ)] (by simp) hmem⟩

/-- Numeric bounds for `Real.sqrt 2`, used throughout the picker geometry. -/
theorem sqrt_two_bounds : (7/5 : ℝ) < Real.sqrt 2 ∧ Real.sqrt 2 < (3/2 : ℝ) := by
  have h := Real.sq_sqrt (show (0:ℝ) ≤ 2 by norm_num)
  have h0 := Real.sqrt_nonneg 2
  constructor <;> nlinarith

/-- Rounding bounds for `Math.round` on reals. -/
theorem jroundR_bounds (z : ℝ) :
    z - 1/2 < HSLPicker.jroundR z ∧ HSLPicker.jroundR z ≤ z + 1/2 := by
  have h1 : ((⌊z + 1/2⌋ : ℤ) : ℝ) ≤ z + 1/2 := Int.floor_le _
  have h2 : z + 1/2 - 1 < ((⌊z + 1/2⌋ : ℤ) : ℝ) := Int.sub_one_lt_floor _
  exact ⟨by simp only [HSLPicker.jroundR]; linarith,
         by simp only [HSLPicker.jroundR]; linarith⟩

/-- One axis of `_setIXY`: the clamp-inset-round combination stays inside
`[r - h, r + h]` whenever the half-side `h` is at least `3/2`. -/
theorem clampRound_mem (r h v : ℝ) (hh : 3/2 ≤ h) :
    r - h ≤ HSLPicker.jroundR
        (if v - r > 0 then min v (r + h) - 1 else max v (r - h) + 1) ∧
    HSLPicker.jroundR
        (if v - r > 0 then min v (r + h) - 1 else max v (r - h) + 1) ≤ r + h := by
  split_ifs with hv
  · obtain ⟨c1, c2⟩ := jroundR_bounds (min v (r + h) - 1)
    have hmin1 : min v (r + h) ≤ r + h := min_le_right _ _
    have hmin2 : r < min v (r + h) := lt_min (by linarith) (by linarith)
    exact ⟨by linarith, by linarith⟩
  · obtain ⟨c1, c2⟩ := jroundR_bounds (max v (r - h) + 1)
    have hmax1 : r - h ≤ max v (r - h) := le_max_right _ _
    have hmax2 : max v (r - h) ≤ r := max_le (by linarith) (by linarith)
    exact ⟨by linarith, by linarith⟩

/-- `_setIXY` keeps both stored coordinates inside the square, for any input
point, whenever the half-side is at least `3/2`. -/
theorem setIXY_mem (st : HSLPicker.State) (x y : ℝ)
    (hh : 3/2 ≤ HSLPicker.squareLength st.radius / 2) :
    st.radius - HSLPicker.squareLength st.radius / 2 ≤ (HSLPicker.setIXY x y st).ix ∧
    (HSLPicker.setIXY x y st).ix ≤ st.radius + HSLPicker.squareLength st.radius / 2 ∧
    st.radius - HSLPicker.squareLength st.radius / 2 ≤ (HSLPicker.setIXY x y st).iy ∧
    (HSLPicker.setIXY x y st).iy ≤ st.radius + HSLPicker.squareLength st.radius / 2 := by
  have h1 := clampRound_mem st.radius (HSLPicker.squareLength st.radius / 2) x hh
  have h2 := clampRound_mem st.radius (HSLPicker.squareLength st.radius / 2) y hh
  exact ⟨h1.1, h1.2, h2.1, h2.2⟩

/-- Every `innerStep` ends in a `_setIXY` call on a state with the same
radius. -/
theorem innerStep_eq_setIXY (st : HSLPicker.State) (e : HSLPicker.InnerEvent) :
    ∃ x y st', HSLPicker.innerStep st e = HSLPicker.setIXY x y st' ∧
      st'.radius = st.radius := by
  cases e with
  | point x y => exact ⟨x, y, st, rfl, rfl⟩
  | color r g b => exact ⟨_, _, _, rfl, rfl⟩

/-- The picker radius is never written after construction. -/
theorem innerStep_radius (st : HSLPicker.State) (e : HSLPicker.InnerEvent) :
    (HSLPicker.innerStep st e).radius = st.radius := by
  cases e with
  | point x y => rfl
  | color r g b => rfl

/-- The inner-selection coordinates lie inside the square of side
`squareLength radius` centred at `(radius, radius)`. -/
def inSquare (radius : ℝ) (st : HSLPicker.State) : Prop :=
  radius - HSLPicker.squareLength radius / 2 ≤ st.ix ∧
  st.ix ≤ radius + HSLPicker.squareLength radius / 2 ∧
  radius - HSLPicker.squareLength radius / 2 ≤ st.iy ∧
  st.iy ≤ radius + HSLPicker.squareLength radius / 2

/-- C4: the claim quantifies over every positive radius; it fails for small
pickers, where the 1-pixel inset overshoots the square.  With `radius = 1`
the square half-side is `√2·(2/5) ≈ 0.566`, and a press at `x = 1.1` stores
`ix = round(0.1) = 0 < radius - squareLength/2 ≈ 0.434`. -/
theorem C4_counterexample :
    ¬ inSquare 1 (HSLPicker.updateInner (11/10) 1 (HSLPicker.init 1 0)) := by
  obtain ⟨hs1, hs2⟩ := sqrt_two_bounds
  have hh : HSLPicker.squareLength 1 / 2 = Real.sqrt 2 * (2/5) := by
    simp only [HSLPicker.squareLength, HSLPicker.ringsize]
    ring
  have hix : (HSLPicker.updateInner (11/10) 1 (HSLPicker.init 1 0)).ix
      = HSLPicker.jroundR (if (11/10 : ℝ) - 1 > 0
          then min (11/10 : ℝ) (1 + HSLPicker.squareLength 1 / 2) - 1
          else max (11/10 : ℝ) (1 - HSLPicker.squareLength 1 / 2) + 1) := rfl
  have hmin : min (11/10 : ℝ) (1 + HSLPicker.squareLength 1 / 2) = 11/10 := by
    rw [min_eq_left]
    rw [hh]
    nlinarith
  have hzero : HSLPicker.jroundR ((11:ℝ)/10 - 1) = 0 := by
    have : ⌊((11:ℝ)/10 - 1) + 1/2⌋ = 0 := by
      rw [Int.floor_eq_zero_iff]
      constructor <;> norm_num
    simp only [HSLPicker.jroundR, this, Int.cast_zero]
  intro hcon
  obtain ⟨hlo, _, _, _⟩ := hcon
  rw [hix, if_pos (by norm_num), hmin, hzero, hh] at hlo
  nlinarith

/-- C4 (amended): for every picker whose radius is at least 3 (so that the
square half-side `√2·(2/5)·radius` is at least `3/2` and dominates the
1-pixel inset; the actual picker uses radius 200), after construction and
after any sequence of `updateInner` and `setColor` calls with arbitrary,
possibly far out-of-bounds, coordinates, the stored `ix` and `iy` lie within
`[radius - squareLength/2, radius + squareLength/2]` on each axis. -/
theorem C4_inner_bounds (radius hue : ℝ) (hr : 3 ≤ radius)
    (l : List HSLPicker.InnerEvent) :
    inSquare radius (HSLPicker.runInner radius hue l) := by
  have hhalf : 3/2 ≤ HSLPicker.squareLength radius / 2 := by
    obtain ⟨hs1, hs2⟩ := sqrt_two_bounds
    simp only [HSLPicker.squareLength, HSLPicker.ringsize]
    nlinarith
  suffices h : ∀ (t : List HSLPicker.InnerEvent) (st : HSLPicker.State),
      st.radius = radius → inSquare radius st →
      inSquare radius (t.foldl HSLPicker.innerStep st) by
    have hix : (HSLPicker.init radius hue).ix = radius := rfl
    have hiy : (HSLPicker.init radius hue).iy = radius := rfl
    refine h l (HSLPicker.init radius hue) rfl ?_
    refine ⟨?_, ?_, ?_, ?_⟩ <;> first
      | (rw [hix]; linarith)
      | (rw [hiy]; linarith)
  intro t
  induction t with
  | nil => intro st hrad hP; simpa using hP
  | cons e t2 ih =>
    intro st hrad hP
    rw [List.foldl_cons]
    refine ih (HSLPicker.innerStep st e) ((innerStep_radius st e).trans hrad) ?_
    obtain ⟨x, y, st', heq, hr'⟩ := innerStep_eq_setIXY st e
    rw [heq]
    have hrr : st'.radius = radius := hr'.trans hrad
    have hmem := setIXY_mem st' x y (by rw [hrr]; exact hhalf)
    rw [hrr] at hmem
    exact hmem

/-- Closed witness for C4 (amended): a radius-5 picker with an empty trace. -/
theorem C4_inner_bounds_witness :
    (3 : ℝ) ≤ 5 ∧ inSquare 5 (HSLPicker.runInner 5 0 []) :=
  ⟨by norm_num, C4_inner_bounds 5 0 (by norm_num) []⟩

/-- Flags and radius after a press: the handler runs both region tests
independently; each sets its flag, and nothing else changes them. -/
theorem pstep_press_flags (st : HSLPicker.State) (x y : ℝ) :
    (HSLPicker.pstep st (HSLPicker.PEvent.press x y)).outerActive =
      (if Real.sqrt ((st.radius - x)^2 + (st.radius - y)^2) < st.radius ∧
          Real.sqrt ((st.radius - x)^2 + (st.radius - y)^2) >
            st.radius - HSLPicker.ringsize st.radius
       then true else st.outerActive) ∧
    (HSLPicker.pstep st (HSLPicker.PEvent.press x y)).innerActive =
      (if Real.sqrt ((st.radius - x)^2 + (st.radius - y)^2) <
          HSLPicker.squareLength st.radius / 2
       then true else st.innerActive) ∧
    (HSLPicker.pstep st (HSLPicker.PEvent.press x y)).radius = st.radius := by
  simp only [HSLPicker.pstep]
  split_ifs <;> exact ⟨rfl, rfl, rfl⟩

/-- A move event never changes the drag flags or the radius. -/
theorem pstep_move_flags (st : HSLPicker.State) (x y : ℝ) :
    (HSLPicker.pstep st (HSLPicker.PEvent.move x y)).outerActive = st.outerActive ∧
    (HSLPicker.pstep st (HSLPicker.PEvent.move x y)).innerActive = st.innerActive ∧
    (HSLPicker.pstep st (HSLPicker.PEvent.move x y)).radius = st.radius := by
  simp only [HSLPicker.pstep]
  split_ifs <;> exact ⟨rfl, rfl, rfl⟩

/-- A release clears both drag flags. -/
theorem pstep_release_flags (st : HSLPicker.State) :
    (HSLPicker.pstep st HSLPicker.PEvent.release).outerActive = false ∧
    (HSLPicker.pstep st HSLPicker.PEvent.release).innerActive = false ∧
    (HSLPicker.pstep st HSLPicker.PEvent.release).radius = st.radius :=
  ⟨rfl, rfl, rfl⟩

/-- Traces in which a press only occurs while the pointer is up: every press
must follow the start of the trace or a release, never another press.  Real
single-pointer input has this shape; two concurrent touch presses do not. -/
def wellFormed : List HSLPicker.PEvent → Bool → Bool
  | [], _ => true
  | HSLPicker.PEvent.press _ _ :: rest, down => !down && wellFormed rest true
  | HSLPicker.PEvent.move _ _ :: rest, down => wellFormed rest down
  | HSLPicker.PEvent.release :: rest, _ => wellFormed rest false

/-- C7: the claim quantifies over arbitrary event sequences; it is false for
a two-finger trace with two presses and no intervening release.  A press in
the square centre (distance 0) sets `innerActive`; a second press on the ring
(distance 180 for radius 200) then sets `outerActive` as well. -/
theorem C7_counterexample :
    (HSLPicker.runPointer 200 0
      [HSLPicker.PEvent.press 200 200,
       HSLPicker.PEvent.press 380 200]).outerActive = true ∧
    (HSLPicker.runPointer 200 0
      [HSLPicker.PEvent.press 200 200,
       HSLPicker.PEvent.press 380 200]).innerActive = true := by
  obtain ⟨hs1, hs2⟩ := sqrt_two_bounds
  have hfold : HSLPicker.runPointer 200 0
      [HSLPicker.PEvent.press 200 200, HSLPicker.PEvent.press 380 200] =
      HSLPicker.pstep (HSLPicker.pstep (HSLPicker.init 200 0)
        (HSLPicker.PEvent.press 200 200)) (HSLPicker.PEvent.press 380 200) := rfl
  obtain ⟨f1o, f1i, f1r⟩ := pstep_press_flags (HSLPicker.init 200 0) 200 200
  have hrad0 : (HSLPicker.init 200 0).radius = 200 := rfl
  rw [hrad0] at f1o f1i
  have hd1 : Real.sqrt (((200:ℝ) - 200)^2 + ((200:ℝ) - 200)^2) = 0 := by
    rw [show ((200:ℝ) - 200)^2 + ((200:ℝ) - 200)^2 = 0 by norm_num, Real.sqrt_zero]
  rw [hd1] at f1o f1i
  rw [if_neg (by
    rintro ⟨-, hgt⟩
    simp only [HSLPicker.ringsize] at hgt
    norm_num at hgt)] at f1o
  rw [if_pos (by
    simp only [HSLPicker.squareLength, HSLPicker.ringsize]
    nlinarith)] at f1i
  have ho1 : (HSLPicker.pstep (HSLPicker.init 200 0)
      (HSLPicker.PEvent.press 200 200)).outerActive = false := f1o
  obtain ⟨f2o, f2i, f2r⟩ := pstep_press_flags
    (HSLPicker.pstep (HSLPicker.init 200 0) (HSLPicker.PEvent.press 200 200)) 380 200
  have hrad1 : (HSLPicker.pstep (HSLPicker.init 200 0)
      (HSLPicker.PEvent.press 200 200)).radius = 200 := f1r.trans hrad0
  rw [hrad1] at f2o f2i
  have hd2 : Real.sqrt (((200:ℝ) - 380)^2 + ((200:ℝ) - 200)^2) = 180 := by
    rw [show ((200:ℝ) - 380)^2 + ((200:ℝ) - 200)^2 = 32400 by norm_num,
        show (32400:ℝ) = 180^2 by norm_num,
        Real.sqrt_sq (by norm_num : (0:ℝ) ≤ 180)]
  rw [hd2] at f2o f2i
  rw [if_pos (by
    constructor
    · norm_num
    · simp only [HSLPicker.ringsize]
      norm_num)] at f2o
  rw [if_neg (by
    simp only [HSLPicker.squareLength, HSLPicker.ringsize]
    intro hcon
    nlinarith)] at f2i
  rw [hfold]
  exact ⟨f2o, f2i.trans f1i⟩

/-- C7 (amended): in every state reachable from construction (any radius
`≥ 0`) by a well-formed sequence of press, move and release events — one in
which each press occurs while the pointer is up, as single-pointer input
guarantees — at most one of `outerActive` and `innerActive` is true.  In
particular no single press can satisfy both region tests, because
`squareLength/2 = √2·(2/5)·radius ≤ radius - ringsize`. -/
theorem C7_flags_exclusive (radius hue : ℝ) (hr : 0 ≤ radius)
    (l : List HSLPicker.PEvent) (hwf : wellFormed l false = true) :
    ¬ ((HSLPicker.runPointer radius hue l).outerActive = true ∧
       (HSLPicker.runPointer radius hue l).innerActive = true) := by
  have hgeom : HSLPicker.squareLength radius / 2 ≤
      radius - HSLPicker.ringsize radius := by
    obtain ⟨hs1, hs2⟩ := sqrt_two_bounds
    simp only [HSLPicker.squareLength, HSLPicker.ringsize]
    nlinarith
  suffices h : ∀ (t : List HSLPicker.PEvent) (st : HSLPicker.State) (down : Bool),
      st.radius = radius → wellFormed t down = true →
      (down = false → st.outerActive = false ∧ st.innerActive = false) →
      ¬ (st.outerActive = true ∧ st.innerActive = true) →
      ¬ ((t.foldl HSLPicker.pstep st).outerActive = true ∧
         (t.foldl HSLPicker.pstep st).innerActive = true) by
    refine h l (HSLPicker.init radius hue) false rfl hwf (fun _ => ⟨rfl, rfl⟩) ?_
    rintro ⟨hcon, -⟩
    have hfalse : (HSLPicker.init radius hue).outerActive = false := rfl
    rw [hfalse] at hcon
    exact Bool.false_ne_true hcon
  intro t
  induction t with
  | nil =>
    intro st down hrad hwf2 hdown hexcl
    simpa using hexcl
  | cons e t2 ih =>
    intro st down hrad hwf2 hdown hexcl
    rw [List.foldl_cons]
    cases e with
    | press x y =>
      simp only [wellFormed, Bool.and_eq_true, Bool.not_eq_eq_eq_not,
        Bool.not_true] at hwf2
      obtain ⟨hdownf, hwf3⟩ := hwf2
      obtain ⟨ho, hi⟩ := hdown hdownf
      obtain ⟨hfo, hfi, hfr⟩ := pstep_press_flags st x y
      refine ih (HSLPicker.pstep st (HSLPicker.PEvent.press x y)) true
        (hfr.trans hrad) hwf3 (fun hcon => absurd hcon (by simp)) ?_
      rintro ⟨h1, h2⟩
      rw [hfo] at h1
      rw [hfi] at h2
      by_cases hc2 : Real.sqrt ((st.radius - x)^2 + (st.radius - y)^2) <
          HSLPicker.squareLength st.radius / 2
      · by_cases hc1 : Real.sqrt ((st.radius - x)^2 + (st.radius - y)^2) < st.radius ∧
            Real.sqrt ((st.radius - x)^2 + (st.radius - y)^2) >
              st.radius - HSLPicker.ringsize st.radius
        · obtain ⟨-, hgt⟩ := hc1
          rw [hrad] at hgt hc2
          linarith
        · rw [if_neg hc1, ho] at h1
          exact Bool.false_ne_true h1
      · rw [if_neg hc2, hi] at h2
        exact Bool.false_ne_true h2
    | move x y =>
      simp only [wellFormed] at hwf2
      obtain ⟨hfo, hfi, hfr⟩ := pstep_move_flags st x y
      refine ih (HSLPicker.pstep st (HSLPicker.PEvent.move x y)) down
        (hfr.trans hrad) hwf2 ?_ ?_
      · intro hdf
        obtain ⟨ho, hi⟩ := hdown hdf
        exact ⟨hfo.trans ho, hfi.trans hi⟩
      · rintro ⟨h1, h2⟩
        exact hexcl ⟨hfo.symm.trans h1, hfi.symm.trans h2⟩
    | release =>
      simp only [wellFormed] at hwf2
      obtain ⟨hfo, hfi, hfr⟩ := pstep_release_flags st
      refine ih (HSLPicker.pstep st HSLPicker.PEvent.release) false
        (hfr.trans hrad) hwf2 (fun _ => ⟨hfo, hfi⟩) ?_
      rintro ⟨h1, -⟩
      exact Bool.false_ne_true (hfo ▸ h1)

/-- Closed witness for C7 (amended): a radius-200 picker and a single
press-release trace around the ring. -/
theorem C7_flags_exclusive_witness :
    ((0:ℝ) ≤ 200 ∧
      wellFormed [HSLPicker.PEvent.press 380 200, HSLPicker.PEvent.release]
        false = true) ∧
    ¬ ((HSLPicker.runPointer 200 0
          [HSLPicker.PEvent.press 380 200, HSLPicker.PEvent.release]).outerActive = true ∧
       (HSLPicker.runPointer 200 0
          [HSLPicker.PEvent.press 380 200, HSLPicker.PEvent.release]).innerActive = true) :=
  ⟨⟨by norm_num, by decide⟩,
   C7_flags_exclusive 200 0 (by norm_num)
     [HSLPicker.PEvent.press 380 200, HSLPicker.PEvent.release] (by decide)⟩

/-- Clamp a rational to `[0,1]`. -/
def clampQ (x : ℚ) : ℚ := max 0 (min 1 x)

/-- Modelled from the spec: the "standard reference HSL-to-RGB composition"
of §8 is not part of the repository source; this is the usual CSS formula
`C = (1-|2L-1|)·S`, `m = L - C/2`, channel `= m + C·t(H)` with the hue `H`
taken modulo 360 and the per-channel tent functions written in closed form
(`t_R = clamp(|H/60-3|-1)`, `t_G = clamp(2-|H/60-2|)`,
`t_B = clamp(2-|H/60-4|)`), each channel scaled by 255 and rounded.  Inputs
are degrees and percentages, as produced by `HSBToHSL`. -/
def hslToRgb (hdeg spct lpct : ℚ) : ℤ × ℤ × ℤ :=
  let S := spct / 100
  let L := lpct / 100
  let C := (1 - |2 * L - 1|) * S
  let m := L - C / 2
  let Hs := (hdeg - 360 * ((⌊hdeg / 360⌋ : ℤ) : ℚ)) / 60
  (jround (255 * (m + C * clampQ (|Hs - 3| - 1))),
   jround (255 * (m + C * clampQ (2 - |Hs - 2|))),
   jround (255 * (m + C * clampQ (2 - |Hs - 4|))))

/-- The round-trip of C2: `RGBtoHSL`, then `HSLToHSB` on the rescaled result,
then `HSBToHSL` on the rescaled result, then the reference `hslToRgb` —
exactly the rescaling used by `HSLPicker.setColor` and `drawColorSquare`. -/
def roundTrip (R G B : ℚ) : ℤ × ℤ × ℤ :=
  let hsl := ColorConvert.RGBtoHSL R G B
  let hsb := ColorConvert.HSLToHSB ((hsl.1 : ℚ) / 60) ((hsl.2.1 : ℚ) / 100)
    ((hsl.2.2 : ℚ) / 100)
  let hsl2 := ColorConvert.HSBToHSL (hsb.1 / 60) (hsb.2.1 / 100) (hsb.2.2 / 100)
  hslToRgb hsl2.1 hsl2.2.1 hsl2.2.2

/-- Wrap a 6-sector hue from `[-1,5]` into `[0,6)`. -/
def hueWrap (H : ℚ) : ℚ := if H < 0 then H + 6 else H

/-- Chroma of an HSL pair with `S, L ∈ [0,1]`. -/
def chromaOf (S L : ℚ) : ℚ := (1 - |2 * L - 1|) * S

/-- Red tent function on sector units. -/
def tR (x : ℚ) : ℚ := clampQ (|x - 3| - 1)

/-- Green tent function on sector units. -/
def tG (x : ℚ) : ℚ := clampQ (2 - |x - 2|)

/-- Blue tent function on sector units. -/
def tB (x : ℚ) : ℚ := clampQ (2 - |x - 4|)

theorem clampQ_nonneg (x : ℚ) : 0 ≤ clampQ x := le_max_left _ _

theorem clampQ_le_one (x : ℚ) : clampQ x ≤ 1 :=
  max_le (by norm_num) (min_le_left _ _)

theorem clampQ_of_nonpos {x : ℚ} (h : x ≤ 0) : clampQ x = 0 :=
  max_eq_left (le_trans (min_le_right _ _) h)

theorem clampQ_of_one_le {x : ℚ} (h : 1 ≤ x) : clampQ x = 1 := by
  rw [clampQ, min_eq_left h]
  norm_num

theorem clampQ_of_mem {x : ℚ} (h0 : 0 ≤ x) (h1 : x ≤ 1) : clampQ x = x := by
  rw [clampQ, min_eq_right h1, max_eq_right h0]

theorem clampQ_lipschitz (a b : ℚ) : |clampQ a - clampQ b| ≤ |a - b| := by
  calc |clampQ a - clampQ b| = |max 0 (min 1 a) - max 0 (min 1 b)| := rfl
    _ ≤ max |(0:ℚ) - 0| |min 1 a - min 1 b| := abs_max_sub_max_le_max 0 (min 1 a) 0 (min 1 b)
    _ = |min 1 a - min 1 b| := by simp [abs_nonneg]
    _ ≤ max |(1:ℚ) - 1| |a - b| := abs_min_sub_min_le_max 1 a 1 b
    _ = |a - b| := by simp [abs_nonneg]

theorem tR_lipschitz (a b : ℚ) : |tR a - tR b| ≤ |a - b| := by
  refine le_trans (clampQ_lipschitz _ _) ?_
  have h : |a - 3| - 1 - (|b - 3| - 1) = |a - 3| - |b - 3| := by ring
  rw [h]
  refine le_trans (abs_abs_sub_abs_le_abs_sub _ _) ?_
  have h2 : a - 3 - (b - 3) = a - b := by ring
  rw [h2]

theorem tG_lipschitz (a b : ℚ) : |tG a - tG b| ≤ |a - b| := by
  refine le_trans (clampQ_lipschitz _ _) ?_
  have h : 2 - |a - 2| - (2 - |b - 2|) = -(|a - 2| - |b - 2|) := by ring
  rw [h, abs_neg]
  refine le_trans (abs_abs_sub_abs_le_abs_sub _ _) ?_
  have h2 : a - 2 - (b - 2) = a - b := by ring
  rw [h2]

theorem tB_lipschitz (a b : ℚ) : |tB a - tB b| ≤ |a - b| := by
  refine le_trans (clampQ_lipschitz _ _) ?_
  have h : 2 - |a - 4| - (2 - |b - 4|) = -(|a - 4| - |b - 4|) := by ring
  rw [h, abs_neg]
  refine le_trans (abs_abs_sub_abs_le_abs_sub _ _) ?_
  have h2 : a - 4 - (b - 4) = a - b := by ring
  rw [h2]

/-- Scaled rounding error: rounding a percentage loses at most half a unit. -/
theorem jround_pct_err (q : ℚ) :
    |((jround (q * 100) : ℤ) : ℚ) / 100 - q| ≤ 1 / 200 := by
  have h := abs_jround_sub_le (q * 100)
  have heq : ((jround (q * 100) : ℤ) : ℚ) / 100 - q
      = (((jround (q * 100) : ℤ) : ℚ) - q * 100) / 100 := by ring
  rw [heq, abs_div, abs_of_pos (by norm_num : (0:ℚ) < 100)]
  linarith

set_option maxHeartbeats 1000000 in
/-- Stage-A characterisation: `RGBtoHSL` rounds exact sector-hue, saturation
and lightness values, and the reference composition of those exact values
reproduces the channels exactly. -/
theorem rgbStageA (r g b : ℤ)
    (hr0 : 0 ≤ r) (hr1 : r ≤ 255) (hg0 : 0 ≤ g) (hg1 : g ≤ 255)
    (hb0 : 0 ≤ b) (hb1 : b ≤ 255) :
    ∃ Hq Sq Lq : ℚ,
      ColorConvert.RGBtoHSL r g b
        = (jround (Hq * 60), jround (Sq * 100), jround (Lq * 100)) ∧
      0 ≤ Sq ∧ Sq ≤ 1 ∧ 0 ≤ Lq ∧ Lq ≤ 1 ∧ -1 ≤ Hq ∧ Hq ≤ 5 ∧
      255 * (Lq + chromaOf Sq Lq * (tR (hueWrap Hq) - 1/2)) = (r : ℚ) ∧
      255 * (Lq + chromaOf Sq Lq * (tG (hueWrap Hq) - 1/2)) = (g : ℚ) ∧
      255 * (Lq + chromaOf Sq Lq * (tB (hueWrap Hq) - 1/2)) = (b : ℚ) := by
  have hr1q : (r : ℚ) / 255 ≤ 1 := by
    rw [div_le_one (by norm_num : (0:ℚ) < 255)]
    exact_mod_cast hr1
  have hg1q : (g : ℚ) / 255 ≤ 1 := by
    rw [div_le_one (by norm_num : (0:ℚ) < 255)]
    exact_mod_cast hg1
  have hb1q : (b : ℚ) / 255 ≤ 1 := by
    rw [div_le_one (by norm_num : (0:ℚ) < 255)]
    exact_mod_cast hb1
  have hr0q : (0 : ℚ) ≤ (r : ℚ) / 255 := by positivity
  have hg0q : (0 : ℚ) ≤ (g : ℚ) / 255 := by positivity
  have hb0q : (0 : ℚ) ≤ (b : ℚ) / 255 := by positivity
  simp only [ColorConvert.RGBtoHSL]
  set rq : ℚ := (r : ℚ) / 255 with hrq
  set gq : ℚ := (g : ℚ) / 255 with hgq
  set bq : ℚ := (b : ℚ) / 255 with hbq
  set cMax : ℚ := max rq (max gq bq) with hcMaxd
  set cMin : ℚ := min rq (min gq bq) with hcMind
  set Sif : ℚ := if (cMax + cMin) / 2 < 1/2 then (cMax - cMin) / (cMax + cMin)
    else (cMax - cMin) / (2 - cMax - cMin) with hSifd
  have hminmax : cMin ≤ cMax := le_trans (min_le_left _ _) (le_max_left _ _)
  have hcMax1 : cMax ≤ 1 := max_le hr1q (max_le hg1q hb1q)
  have hcMin0 : (0 : ℚ) ≤ cMin := le_min hr0q (le_min hg0q hb0q)
  have hgle : gq ≤ cMax := le_trans (le_max_left _ _) (le_max_right _ _)
  have hble : bq ≤ cMax := le_trans (le_max_right _ _) (le_max_right _ _)
  have hrle : rq ≤ cMax := le_max_left _ _
  have hrge : cMin ≤ rq := min_le_left _ _
  have hgge : cMin ≤ gq := le_trans (min_le_right _ _) (min_le_left _ _)
  have hbge : cMin ≤ bq := le_trans (min_le_right _ _) (min_le_right _ _)
  have h255 : (255 : ℚ) ≠ 0 := by norm_num
  by_cases h1 : cMax = cMin
  · -- gray: all three channels coincide
    rw [if_pos h1, if_pos h1]
    have hrc : rq = cMax := le_antisymm hrle (by rw [h1]; exact hrge)
    have hgc : gq = cMax := le_antisymm hgle (by rw [h1]; exact hgge)
    have hbc : bq = cMax := le_antisymm hble (by rw [h1]; exact hbge)
    have hch : chromaOf 0 ((cMax + cMin) / 2) = 0 := mul_zero _
    have hhalf : (cMax + cMin) / 2 = cMax := by rw [← h1]; ring
    refine ⟨0, 0, (cMax + cMin) / 2, rfl, le_rfl, by norm_num, by linarith, by linarith,
      by norm_num, by norm_num, ?_, ?_, ?_⟩
    · rw [hch, zero_mul, add_zero, hhalf, ← hrc, hrq]
      field_simp
    · rw [hch, zero_mul, add_zero, hhalf, ← hgc, hgq]
      field_simp
    · rw [hch, zero_mul, add_zero, hhalf, ← hbc, hbq]
      field_simp
  · rw [if_neg h1, if_neg h1]
    have hlt : cMin < cMax := hminmax.lt_of_ne fun hEq => h1 hEq.symm
    have hdC : (0 : ℚ) < cMax - cMin := by linarith
    have hden1 : (0 : ℚ) < cMax + cMin := by linarith
    have hden2 : (0 : ℚ) < 2 - cMax - cMin := by linarith
    have hS0 : 0 ≤ Sif := by
      rw [hSifd]
      split_ifs <;> exact div_nonneg hdC.le (by linarith)
    have hS1 : Sif ≤ 1 := by
      rw [hSifd]
      split_ifs <;> rw [div_le_one (by linarith)] <;> linarith
    have hch : chromaOf Sif ((cMax + cMin) / 2) = cMax - cMin := by
      rw [hSifd, chromaOf]
      have harg : 2 * ((cMax + cMin) / 2) - 1 = cMax + cMin - 1 := by ring
      rw [harg]
      split_ifs with hL
      · rw [abs_of_nonpos (by linarith)]
        field_simp
      · rw [abs_of_nonneg (by linarith)]
        field_simp
        ring
    by_cases h2 : cMax = rq
    · rw [if_pos h2]
      have hHlo : (-1 : ℚ) ≤ (gq - bq) / (cMax - cMin) := by
        rw [le_div_iff₀ hdC]
        linarith
      have hHhi : (gq - bq) / (cMax - cMin) ≤ 1 := by
        rw [div_le_one hdC]
        linarith
      have hbrq : bq ≤ rq := by rw [← h2]; exact hble
      have hgrq : gq ≤ rq := by rw [← h2]; exact hgle
      rcases le_or_lt bq gq with hbg | hgb
      · -- red max, g ≥ b: sector [0,1]
        have hH0 : 0 ≤ (gq - bq) / (cMax - cMin) := div_nonneg (by linarith) hdC.le
        have hcm : cMin = bq := by
          rw [hcMind, min_eq_right hbg, min_eq_right hbrq]
        have hw : hueWrap ((gq - bq) / (cMax - cMin)) = (gq - bq) / (cMax - cMin) := by
          simp only [hueWrap]
          rw [if_neg (not_lt.mpr hH0)]
        have htRv : tR ((gq - bq) / (cMax - cMin)) = 1 := by
          simp only [tR]
          rw [abs_of_nonpos (by linarith), show -((gq - bq) / (cMax - cMin) - 3) - 1
            = 2 - (gq - bq) / (cMax - cMin) from by ring]
          exact clampQ_of_one_le (by linarith)
        have htGv : tG ((gq - bq) / (cMax - cMin)) = (gq - bq) / (cMax - cMin) := by
          simp only [tG]
          rw [abs_of_nonpos (by linarith), show 2 - -((gq - bq) / (cMax - cMin) - 2)
            = (gq - bq) / (cMax - cMin) from by ring]
          exact clampQ_of_mem hH0 hHhi
        have htBv : tB ((gq - bq) / (cMax - cMin)) = 0 := by
          simp only [tB]
          rw [abs_of_nonpos (by linarith), show 2 - -((gq - bq) / (cMax - cMin) - 4)
            = (gq - bq) / (cMax - cMin) - 2 from by ring]
          exact clampQ_of_nonpos (by linarith)
        refine ⟨(gq - bq) / (cMax - cMin), Sif, (cMax + cMin) / 2, rfl, hS0, hS1,
          by linarith, by linarith, hHlo, le_trans hHhi (by norm_num), ?_, ?_, ?_⟩
        · rw [hw, htRv, hch, h2, hcm, hrq, hbq]
          field_simp
          ring
        · rw [hw, htGv, hch]
          rw [show (cMax - cMin) * ((gq - bq) / (cMax - cMin) - 1/2)
            = (gq - bq) - (cMax - cMin) / 2 from by field_simp [hdC.ne']; ring]
          rw [h2, hcm, hrq, hgq, hbq]
          field_simp
          ring
        · rw [hw, htBv, hch, h2, hcm, hrq, hbq]
          field_simp
          ring
      · -- red max, g < b: sector [5,6) after wrap
        have hHneg : (gq - bq) / (cMax - cMin) < 0 :=
          div_neg_of_neg_of_pos (by linarith) hdC
        have hcm : cMin = gq := by
          rw [hcMind, min_eq_left hgb.le, min_eq_right hgrq]
        have hw : hueWrap ((gq - bq) / (cMax - cMin))
            = (gq - bq) / (cMax - cMin) + 6 := by
          simp only [hueWrap]
          rw [if_pos hHneg]
        have htRv : tR ((gq - bq) / (cMax - cMin) + 6) = 1 := by
          simp only [tR]
          rw [abs_of_nonneg (by linarith), show (gq - bq) / (cMax - cMin) + 6 - 3 - 1
            = (gq - bq) / (cMax - cMin) + 2 from by ring]
          exact clampQ_of_one_le (by linarith)
        have htGv : tG ((gq - bq) / (cMax - cMin) + 6) = 0 := by
          simp only [tG]
          rw [abs_of_nonneg (by linarith), show 2 - ((gq - bq) / (cMax - cMin) + 6 - 2)
            = -((gq - bq) / (cMax - cMin)) - 2 from by ring]
          exact clampQ_of_nonpos (by linarith)
        have htBv : tB ((gq - bq) / (cMax - cMin) + 6)
            = -((gq - bq) / (cMax - cMin)) := by
          simp only [tB]
          rw [abs_of_nonneg (by linarith), show 2 - ((gq - bq) / (cMax - cMin) + 6 - 4)
            = -((gq - bq) / (cMax - cMin)) from by ring]
          exact clampQ_of_mem (by linarith) (by linarith)
        refine ⟨(gq - bq) / (cMax - cMin), Sif, (cMax + cMin) / 2, rfl, hS0, hS1,
          by linarith, by linarith, hHlo, le_trans hHhi (by norm_num), ?_, ?_, ?_⟩
        · rw [hw, htRv, hch, h2, hcm, hrq, hgq]
          field_simp
          ring
        · rw [hw, htGv, hch, h2, hcm, hrq, hgq]
          field_simp
          ring
        · rw [hw, htBv, hch]
          rw [show (cMax - cMin) * (-((gq - bq) / (cMax - cMin)) - 1/2)
            = (bq - gq) - (cMax - cMin) / 2 from by field_simp [hdC.ne']; ring]
          rw [h2, hcm, hrq, hgq, hbq]
          field_simp
          ring
    · rw [if_neg h2]
      have hrlt : rq < cMax := lt_of_le_of_ne hrle fun hEq => h2 hEq.symm
      by_cases h4 : cMax = gq
      · rw [if_pos h4]
        have hHlo : (1 : ℚ) ≤ 2 + (bq - rq) / (cMax - cMin) := by
          have : (-1 : ℚ) ≤ (bq - rq) / (cMax - cMin) := by
            rw [le_div_iff₀ hdC]
            linarith
          linarith
        have hHhi : 2 + (bq - rq) / (cMax - cMin) ≤ 3 := by
          have : (bq - rq) / (cMax - cMin) ≤ 1 := by
            rw [div_le_one hdC]
            linarith
          linarith
        have hbgq : bq ≤ gq := by rw [← h4]; exact hble
        have hw : hueWrap (2 + (bq - rq) / (cMax - cMin))
            = 2 + (bq - rq) / (cMax - cMin) := by
          simp only [hueWrap]
          rw [if_neg (not_lt.mpr (by linarith))]
        have htGv : tG (2 + (bq - rq) / (cMax - cMin)) = 1 := by
          simp only [tG]
          rcases abs_cases (2 + (bq - rq) / (cMax - cMin) - 2) with ⟨he, hc⟩ | ⟨he, hc⟩ <;>
            rw [he] <;> exact clampQ_of_one_le (by linarith)
        rcases le_or_lt bq rq with hbr | hrb
        · -- green max, b ≤ r: H ∈ [1,2]
          have hcm : cMin = bq := by
            rw [hcMind, min_eq_right hbgq, min_eq_right hbr]
          have hHle2 : 2 + (bq - rq) / (cMax - cMin) ≤ 2 := by
            have : (bq - rq) / (cMax - cMin) ≤ 0 :=
              div_nonpos_of_nonpos_of_nonneg (by linarith) hdC.le
            linarith
          have htRv : tR (2 + (bq - rq) / (cMax - cMin))
              = -((bq - rq) / (cMax - cMin)) := by
            simp only [tR]
            rw [abs_of_nonpos (by linarith), show
              -(2 + (bq - rq) / (cMax - cMin) - 3) - 1
                = -((bq - rq) / (cMax - cMin)) from by ring]
            exact clampQ_of_mem (by linarith) (by linarith)
          have htBv : tB (2 + (bq - rq) / (cMax - cMin)) = 0 := by
            simp only [tB]
            rw [abs_of_nonpos (by linarith), show
              2 - -(2 + (bq - rq) / (cMax - cMin) - 4)
                = (bq - rq) / (cMax - cMin) from by ring]
            exact clampQ_of_nonpos (by linarith)
          refine ⟨2 + (bq - rq) / (cMax - cMin), Sif, (cMax + cMin) / 2, rfl, hS0, hS1,
            by linarith, by linarith, by linarith, by linarith, ?_, ?_, ?_⟩
          · rw [hw, htRv, hch]
            rw [show (cMax - cMin) * (-((bq - rq) / (cMax - cMin)) - 1/2)
              = (rq - bq) - (cMax - cMin) / 2 from by field_simp [hdC.ne']; ring]
            rw [h4, hcm, hrq, hgq, hbq]
            field_simp
            ring
          · rw [hw, htGv, hch, h4, hcm, hgq, hbq]
            field_simp
            ring
          · rw [hw, htBv, hch, h4, hcm, hgq, hbq]
            field_simp
            ring
        · -- green max, b > r: H ∈ (2,3]
          have hcm : cMin = rq := by
            rw [hcMind, min_eq_left (le_min (by linarith [hgle, h4]) hrb.le)]
          have hHgt2 : 2 < 2 + (bq - rq) / (cMax - cMin) := by
            have : 0 < (bq - rq) / (cMax - cMin) := div_pos (by linarith) hdC
            linarith
          have htRv : tR (2 + (bq - rq) / (cMax - cMin)) = 0 := by
            simp only [tR]
            rw [abs_of_nonpos (by linarith), show
              -(2 + (bq - rq) / (cMax - cMin) - 3) - 1
                = -((bq - rq) / (cMax - cMin)) from by ring]
            exact clampQ_of_nonpos (by linarith)
          have htBv : tB (2 + (bq - rq) / (cMax - cMin))
              = (bq - rq) / (cMax - cMin) := by
            simp only [tB]
            rw [abs_of_nonpos (by linarith), show
              2 - -(2 + (bq - rq) / (cMax - cMin) - 4)
                = (bq - rq) / (cMax - cMin) from by ring]
            exact clampQ_of_mem (by linarith) (by linarith)
          refine ⟨2 + (bq - rq) / (cMax - cMin), Sif, (cMax + cMin) / 2, rfl, hS0, hS1,
            by linarith, by linarith, by linarith, by linarith, ?_, ?_, ?_⟩
          · rw [hw, htRv, hch, h4, hcm, hrq, hgq]
            field_simp
            ring
          · rw [hw, htGv, hch, h4, hcm, hrq, hgq]
            field_simp
            ring
          · rw [hw, htBv, hch]
            rw [show (cMax - cMin) * ((bq - rq) / (cMax - cMin) - 1/2)
              = (bq - rq) - (cMax - cMin) / 2 from by field_simp [hdC.ne']; ring]
            rw [h4, hcm, hrq, hgq, hbq]
            field_simp
            ring
      · rw [if_neg h4]
        -- the maximum must be the blue channel
        have hcb : cMax = bq := by
          rcases max_choice rq (max gq bq) with hc | hc
          · exact absurd (hcMaxd.trans hc) h2
          · rcases max_choice gq bq with hc2 | hc2
            · exact absurd (hcMaxd.trans (hc.trans hc2)) h4
            · exact hcMaxd.trans (hc.trans hc2)
        have hglt : gq < cMax := lt_of_le_of_ne hgle fun hEq => h4 hEq.symm
        have hHlo : (3 : ℚ) ≤ 4 + (rq - gq) / (cMax - cMin) := by
          have : (-1 : ℚ) ≤ (rq - gq) / (cMax - cMin) := by
            rw [le_div_iff₀ hdC]
            linarith
          linarith
        have hHhi : 4 + (rq - gq) / (cMax - cMin) ≤ 5 := by
          have : (rq - gq) / (cMax - cMin) ≤ 1 := by
            rw [div_le_one hdC]
            linarith
          linarith
        have hw : hueWrap (4 + (rq - gq) / (cMax - cMin))
            = 4 + (rq - gq) / (cMax - cMin) := by
          simp only [hueWrap]
          rw [if_neg (not_lt.mpr (by linarith))]
        have htBv : tB (4 + (rq - gq) / (cMax - cMin)) = 1 := by
          simp only [tB]
          rcases abs_cases (4 + (rq - gq) / (cMax - cMin) - 4) with ⟨he, hc⟩ | ⟨he, hc⟩ <;>
            rw [he] <;> exact clampQ_of_one_le (by linarith)
        rcases le_or_lt gq rq with hgr | hrg
        · -- blue max, g ≤ r: H ∈ [4,5]
          have hcm : cMin = gq := by
            rw [hcMind, min_eq_left (show gq ≤ bq by rw [← hcb]; exact hgle),
              min_eq_right hgr]
          have hH4 : (4 : ℚ) ≤ 4 + (rq - gq) / (cMax - cMin) := by
            have : 0 ≤ (rq - gq) / (cMax - cMin) := div_nonneg (by linarith) hdC.le
            linarith
          have htRv : tR (4 + (rq - gq) / (cMax - cMin))
              = (rq - gq) / (cMax - cMin) := by
            simp only [tR]
            rw [abs_of_nonneg (by linarith), show
              4 + (rq - gq) / (cMax - cMin) - 3 - 1
                = (rq - gq) / (cMax - cMin) from by ring]
            exact clampQ_of_mem (by linarith) (by linarith)
          have htGv : tG (4 + (rq - gq) / (cMax - cMin)) = 0 := by
            simp only [tG]
            rw [abs_of_nonneg (by linarith), show
              2 - (4 + (rq - gq) / (cMax - cMin) - 2)
                = -((rq - gq) / (cMax - cMin)) from by ring]
            exact clampQ_of_nonpos (by linarith)
          refine ⟨4 + (rq - gq) / (cMax - cMin), Sif, (cMax + cMin) / 2, rfl, hS0, hS1,
            by linarith, by linarith, by linarith, by linarith, ?_, ?_, ?_⟩
          · rw [hw, htRv, hch]
            rw [show (cMax - cMin) * ((rq - gq) / (cMax - cMin) - 1/2)
              = (rq - gq) - (cMax - cMin) / 2 from by field_simp [hdC.ne']; ring]
            rw [hcb, hcm, hrq, hgq, hbq]
            field_simp
            ring
          · rw [hw, htGv, hch, hcb, hcm, hgq, hbq]
            field_simp
            ring
          · rw [hw, htBv, hch, hcb, hcm, hgq, hbq]
            field_simp
            ring
        · -- blue max, g > r: H ∈ [3,4)
          have hcm : cMin = rq := by
            rw [hcMind, min_eq_left (le_min hrg.le (by rw [← hcb]; exact hrle))]
          have hHneg : (rq - gq) / (cMax - cMin) < 0 :=
            div_neg_of_neg_of_pos (by linarith) hdC
          have hH4 : 4 + (rq - gq) / (cMax - cMin) < 4 := by linarith
          have htRv : tR (4 + (rq - gq) / (cMax - cMin)) = 0 := by
            simp only [tR]
            rw [abs_of_nonneg (by linarith), show
              4 + (rq - gq) / (cMax - cMin) - 3 - 1
                = (rq - gq) / (cMax - cMin) from by ring]
            exact clampQ_of_nonpos (by linarith)
          have htGv : tG (4 + (rq - gq) / (cMax - cMin))
              = -((rq - gq) / (cMax - cMin)) := by
            simp only [tG]
            rw [abs_of_nonneg (by linarith), show
              2 - (4 + (rq - gq) / (cMax - cMin) - 2)
                = -((rq - gq) / (cMax - cMin)) from by ring]
            exact clampQ_of_mem (by linarith) (by linarith)
          refine ⟨4 + (rq - gq) / (cMax - cMin), Sif, (cMax + cMin) / 2, rfl, hS0, hS1,
            by linarith, by linarith, by linarith, by linarith, ?_, ?_, ?_⟩
          · rw [hw, htRv, hch, hcb, hcm, hrq, hbq]
            field_simp
            ring
          · rw [hw, htGv, hch]
            rw [show (cMax - cMin) * (-((rq - gq) / (cMax - cMin)) - 1/2)
              = (gq - rq) - (cMax - cMin) / 2 from by field_simp [hdC.ne']; ring]
            rw [hcb, hcm, hrq, hgq, hbq]
            field_simp
            ring
          · rw [hw, htBv, hch, hcb, hcm, hrq, hbq]
            field_simp
            ring

/-- Unfolded form of the reference converter: each channel is
`round(255·(L + C·(t(H) - 1/2)))` in the tent-function notation. -/
theorem hslToRgb_eq (hdeg spct lpct : ℚ) :
    hslToRgb hdeg spct lpct =
      (jround (255 * (lpct / 100 + chromaOf (spct / 100) (lpct / 100) *
          (tR ((hdeg - 360 * ((⌊hdeg / 360⌋ : ℤ) : ℚ)) / 60) - 1/2))),
       jround (255 * (lpct / 100 + chromaOf (spct / 100) (lpct / 100) *
          (tG ((hdeg - 360 * ((⌊hdeg / 360⌋ : ℤ) : ℚ)) / 60) - 1/2))),
       jround (255 * (lpct / 100 + chromaOf (spct / 100) (lpct / 100) *
          (tB ((hdeg - 360 * ((⌊hdeg / 360⌋ : ℤ) : ℚ)) / 60) - 1/2)))) := by
  simp only [hslToRgb, chromaOf, tR, tG, tB]
  refine congrArg₂ Prod.mk ?_ (congrArg₂ Prod.mk ?_ ?_) <;>
    exact congrArg jround (by ring)

/-- For integer degrees in `[-60, 300]`, the mod-360 sector value is either
`h/60` or `h/60 + 6`. -/
theorem hueModOfInt (hZ : ℤ) (h1 : -60 ≤ hZ) (h2 : hZ ≤ 300) :
    ((hZ : ℚ) - 360 * ((⌊(hZ : ℚ) / 360⌋ : ℤ) : ℚ)) / 60
      = if hZ < 0 then (hZ : ℚ) / 60 + 6 else (hZ : ℚ) / 60 := by
  split_ifs with hneg
  · have hfl : ⌊(hZ : ℚ) / 360⌋ = -1 := by
      rw [Int.floor_eq_iff]
      constructor
      · rw [show (((-1 : ℤ) : ℚ)) = -1 from by norm_num,
          le_div_iff₀ (by norm_num : (0:ℚ) < 360)]
        have : (-360 : ℚ) ≤ (hZ : ℚ) := by exact_mod_cast (by linarith : (-360 : ℤ) ≤ hZ)
        linarith
      · have hz : (hZ : ℚ) < 0 := by exact_mod_cast hneg
        have : (hZ : ℚ) / 360 < 0 := div_neg_of_neg_of_pos hz (by norm_num)
        push_cast
        linarith
    rw [hfl]
    push_cast
    ring
  · have hfl : ⌊(hZ : ℚ) / 360⌋ = 0 := by
      rw [Int.floor_eq_zero_iff, Set.mem_Ico]
      constructor
      · exact div_nonneg (by exact_mod_cast not_lt.mp hneg) (by norm_num)
      · rw [div_lt_one (by norm_num : (0:ℚ) < 360)]
        exact_mod_cast lt_of_le_of_lt h2 (by norm_num : (300:ℤ) < 360)
    rw [hfl]
    push_cast
    ring

/-- Bounds for each tent function. -/
theorem tR_mem (x : ℚ) : 0 ≤ tR x ∧ tR x ≤ 1 := ⟨clampQ_nonneg _, clampQ_le_one _⟩

theorem tG_mem (x : ℚ) : 0 ≤ tG x ∧ tG x ≤ 1 := ⟨clampQ_nonneg _, clampQ_le_one _⟩

theorem tB_mem (x : ℚ) : 0 ≤ tB x ∧ tB x ≤ 1 := ⟨clampQ_nonneg _, clampQ_le_one _⟩

set_option maxHeartbeats 800000 in
/-- Rounding a sector hue to whole degrees moves every tent value by at most
`1/120`, including across the `0 = 360` wrap. -/
theorem tents_close (Hq : ℚ) (hZ : ℤ) (hH0 : -1 ≤ Hq) (hH1 : Hq ≤ 5)
    (hrd : hZ = jround (Hq * 60)) :
    |tR (if hZ < 0 then (hZ:ℚ)/60 + 6 else (hZ:ℚ)/60) - tR (hueWrap Hq)| ≤ 1/120 ∧
    |tG (if hZ < 0 then (hZ:ℚ)/60 + 6 else (hZ:ℚ)/60) - tG (hueWrap Hq)| ≤ 1/120 ∧
    |tB (if hZ < 0 then (hZ:ℚ)/60 + 6 else (hZ:ℚ)/60) - tB (hueWrap Hq)| ≤ 1/120 := by
  have herr : |(hZ:ℚ) - Hq * 60| ≤ 1/2 := by
    rw [hrd]
    exact abs_jround_sub_le _
  have herr2 := abs_le.mp herr
  by_cases hq : Hq < 0
  · by_cases hz : hZ < 0
    · rw [if_pos hz]
      simp only [hueWrap]
      rw [if_pos hq]
      have hd : |(hZ:ℚ)/60 + 6 - (Hq + 6)| ≤ 1/120 := by
        rw [show (hZ:ℚ)/60 + 6 - (Hq + 6) = ((hZ:ℚ) - Hq * 60)/60 from by ring,
          abs_div, abs_of_pos (by norm_num : (0:ℚ) < 60)]
        linarith
      exact ⟨le_trans (tR_lipschitz _ _) hd, le_trans (tG_lipschitz _ _) hd,
        le_trans (tB_lipschitz _ _) hd⟩
    · -- the wrap-straddling case: hZ = 0 and Hq ∈ [-1/120, 0)
      rw [if_neg hz]
      simp only [hueWrap]
      rw [if_pos hq]
      have hq60 : Hq * 60 < 0 := mul_neg_of_neg_of_pos hq (by norm_num)
      have hz0 : hZ = 0 := by
        have hlb : (0:ℤ) ≤ hZ := not_lt.mp hz
        have hub : (hZ:ℚ) < 1/2 := by linarith
        have : hZ < 1 := by exact_mod_cast lt_of_lt_of_le hub (by norm_num : (1:ℚ)/2 ≤ 1)
        omega
      have hq120 : -(1/120 : ℚ) ≤ Hq := by
        have h60 : (hZ:ℚ) - 1/2 ≤ Hq * 60 := by linarith
        rw [hz0] at h60
        push_cast at h60
        linarith
      rw [hz0]
      have hcast : (((0:ℤ):ℚ))/60 = 0 := by norm_num
      rw [hcast]
      have htR0 : tR 0 = 1 := by
        simp only [tR]
        rw [show |(0:ℚ) - 3| - 1 = 2 from by norm_num]
        exact clampQ_of_one_le (by norm_num)
      have htRw : tR (Hq + 6) = 1 := by
        simp only [tR]
        rw [abs_of_nonneg (by linarith), show Hq + 6 - 3 - 1 = Hq + 2 from by ring]
        exact clampQ_of_one_le (by linarith)
      have htG0 : tG 0 = 0 := by
        simp only [tG]
        rw [show 2 - |(0:ℚ) - 2| = 0 from by norm_num]
        exact clampQ_of_nonpos le_rfl
      have htGw : tG (Hq + 6) = 0 := by
        simp only [tG]
        rw [abs_of_nonneg (by linarith), show 2 - (Hq + 6 - 2) = -2 - Hq from by ring]
        exact clampQ_of_nonpos (by linarith)
      have htB0 : tB 0 = 0 := by
        simp only [tB]
        rw [show 2 - |(0:ℚ) - 4| = -2 from by norm_num]
        exact clampQ_of_nonpos (by norm_num)
      have htBw : tB (Hq + 6) = -Hq := by
        simp only [tB]
        rw [abs_of_nonneg (by linarith), show 2 - (Hq + 6 - 4) = -Hq from by ring]
        exact clampQ_of_mem (by linarith) (by linarith)
      refine ⟨?_, ?_, ?_⟩
      · rw [htR0, htRw]
        norm_num
      · rw [htG0, htGw]
        norm_num
      · rw [htB0, htBw]
        rw [show (0:ℚ) - -Hq = Hq from by ring, abs_of_nonpos hq.le]
        linarith
  · have hz : ¬ hZ < 0 := by
      intro hcon
      have hq60 : 0 ≤ Hq * 60 := mul_nonneg (not_lt.mp hq) (by norm_num)
      have : (hZ:ℚ) ≤ -1 := by exact_mod_cast (by omega : hZ ≤ -1)
      linarith
    rw [if_neg hz]
    simp only [hueWrap]
    rw [if_neg hq]
    have hd : |(hZ:ℚ)/60 - Hq| ≤ 1/120 := by
      rw [show (hZ:ℚ)/60 - Hq = ((hZ:ℚ) - Hq * 60)/60 from by ring,
        abs_div, abs_of_pos (by norm_num : (0:ℚ) < 60)]
      linarith
    exact ⟨le_trans (tR_lipschitz _ _) hd, le_trans (tG_lipschitz _ _) hd,
      le_trans (tB_lipschitz _ _) hd⟩

/-- Chroma bounds. -/
theorem chromaOf_mem (S L : ℚ) (hS0 : 0 ≤ S) (hS1 : S ≤ 1) (hL0 : 0 ≤ L) (hL1 : L ≤ 1) :
    0 ≤ chromaOf S L ∧ chromaOf S L ≤ 1 := by
  have habs : |2 * L - 1| ≤ 1 := abs_le.mpr ⟨by linarith, by linarith⟩
  constructor
  · exact mul_nonneg (by linarith) hS0
  · exact le_trans (mul_le_of_le_one_right (by linarith [abs_nonneg (2 * L - 1)]) hS1)
      (by linarith [abs_nonneg (2 * L - 1)])

/-- Perturbation bound for the chroma. -/
theorem chromaOf_close (Sa La Sb Lb uS uL : ℚ)
    (hSb0 : 0 ≤ Sb) (hSb1 : Sb ≤ 1) (hLa0 : 0 ≤ La) (hLa1 : La ≤ 1)
    (hdS : |Sa - Sb| ≤ uS) (hdL : |La - Lb| ≤ uL) :
    |chromaOf Sa La - chromaOf Sb Lb| ≤ uS + 2 * uL := by
  have hkey : chromaOf Sa La - chromaOf Sb Lb
      = (1 - |2 * La - 1|) * (Sa - Sb) + Sb * (|2 * Lb - 1| - |2 * La - 1|) := by
    simp only [chromaOf]
    ring
  have habsa : |2 * La - 1| ≤ 1 := abs_le.mpr ⟨by linarith, by linarith⟩
  have h1 : |(1 - |2 * La - 1|) * (Sa - Sb)| ≤ uS := by
    rw [abs_mul]
    have hb1 : abs (1 - |2 * La - 1|) ≤ 1 :=
      abs_le.mpr ⟨by linarith [abs_nonneg (2 * La - 1)],
        by linarith [abs_nonneg (2 * La - 1)]⟩
    calc abs (1 - |2 * La - 1|) * |Sa - Sb| ≤ 1 * uS :=
          mul_le_mul hb1 hdS (abs_nonneg _) (by norm_num)
      _ = uS := one_mul _
  have h2 : |Sb * (|2 * Lb - 1| - |2 * La - 1|)| ≤ 2 * uL := by
    rw [abs_mul, abs_of_nonneg hSb0]
    have hinner : abs (|2 * Lb - 1| - |2 * La - 1|) ≤ 2 * uL := by
      refine le_trans (abs_abs_sub_abs_le_abs_sub _ _) ?_
      rw [show 2 * Lb - 1 - (2 * La - 1) = -(2 * (La - Lb)) from by ring, abs_neg,
        abs_mul, abs_of_pos (by norm_num : (0:ℚ) < 2)]
      linarith
    calc Sb * abs (|2 * Lb - 1| - |2 * La - 1|) ≤ 1 * (2 * uL) :=
          mul_le_mul hSb1 hinner (abs_nonneg _) (by norm_num)
      _ = 2 * uL := one_mul _
  calc |chromaOf Sa La - chromaOf Sb Lb|
      = |(1 - |2 * La - 1|) * (Sa - Sb) + Sb * (|2 * Lb - 1| - |2 * La - 1|)| := by
        rw [hkey]
    _ ≤ |(1 - |2 * La - 1|) * (Sa - Sb)| + |Sb * (|2 * Lb - 1| - |2 * La - 1|)| :=
        abs_add _ _
    _ ≤ uS + 2 * uL := add_le_add h1 h2

/-- Perturbation bound for a product of unit-interval quantities. -/
theorem mul_close (a b c d uA uB : ℚ) (hb : |b| ≤ 1) (hc : |c| ≤ 1)
    (hda : |a - c| ≤ uA) (hdb : |b - d| ≤ uB) :
    |a * b - c * d| ≤ uA + uB := by
  have hkey : a * b - c * d = (a - c) * b + c * (b - d) := by ring
  calc |a * b - c * d| = |(a - c) * b + c * (b - d)| := by rw [hkey]
    _ ≤ |(a - c) * b| + |c * (b - d)| := abs_add _ _
    _ ≤ uA * 1 + 1 * uB := by
        rw [abs_mul, abs_mul]
        exact add_le_add (mul_le_mul hda hb (abs_nonneg _) (le_trans (abs_nonneg _) hda))
          (mul_le_mul hc hdb (abs_nonneg _) (by norm_num))
    _ = uA + uB := by ring

/-- Final per-channel bound: once the lightness, chroma and tent values of
the rounded pipeline are close to the exact ones, the rounded 255-scale
channel is within 12 of the original integer channel. -/
theorem channel_bound (L3v Lqv C3v CCv t3 tq : ℚ) (orig : ℤ)
    (hFq : 255 * (Lqv + CCv * (tq - 1/2)) = (orig : ℚ))
    (hL : |L3v - Lqv| ≤ 4/200) (hC : |C3v - CCv| ≤ 8/200)
    (ht : |t3 - tq| ≤ 1/120) (ht30 : 0 ≤ t3) (ht31 : t3 ≤ 1)
    (hCC0 : 0 ≤ CCv) (hCC1 : CCv ≤ 1) :
    |jround (255 * (L3v + C3v * (t3 - 1/2))) - orig| ≤ 12 := by
  have hdec : L3v + C3v * (t3 - 1/2) - (Lqv + CCv * (tq - 1/2))
      = (L3v - Lqv) + (C3v - CCv) * (t3 - 1/2) + CCv * (t3 - tq) := by ring
  have hmid : |(C3v - CCv) * (t3 - 1/2)| ≤ 8/200 * (1/2) := by
    rw [abs_mul]
    exact mul_le_mul hC (abs_le.mpr ⟨by linarith, by linarith⟩) (abs_nonneg _)
      (by norm_num)
  have hlast : |CCv * (t3 - tq)| ≤ 1 * (1/120) := by
    rw [abs_mul, abs_of_nonneg hCC0]
    exact mul_le_mul hCC1 ht (abs_nonneg _) (by norm_num)
  have hF : |L3v + C3v * (t3 - 1/2) - (Lqv + CCv * (tq - 1/2))| ≤ 29/600 := by
    rw [hdec]
    calc |(L3v - Lqv) + (C3v - CCv) * (t3 - 1/2) + CCv * (t3 - tq)|
        ≤ |(L3v - Lqv) + (C3v - CCv) * (t3 - 1/2)| + |CCv * (t3 - tq)| := abs_add _ _
      _ ≤ |L3v - Lqv| + |(C3v - CCv) * (t3 - 1/2)| + |CCv * (t3 - tq)| := by
          linarith [abs_add (L3v - Lqv) ((C3v - CCv) * (t3 - 1/2))]
      _ ≤ 4/200 + 8/200 * (1/2) + 1 * (1/120) := by linarith
      _ = 29/600 := by norm_num
  have hround := abs_jround_sub_le (255 * (L3v + C3v * (t3 - 1/2)))
  have htotal : |((jround (255 * (L3v + C3v * (t3 - 1/2))) : ℤ) : ℚ) - (orig : ℚ)|
      ≤ 1/2 + 255 * (29/600) := by
    have h255F : |255 * (L3v + C3v * (t3 - 1/2)) - (orig : ℚ)| ≤ 255 * (29/600) := by
      rw [← hFq, show 255 * (L3v + C3v * (t3 - 1/2)) - 255 * (Lqv + CCv * (tq - 1/2))
        = 255 * (L3v + C3v * (t3 - 1/2) - (Lqv + CCv * (tq - 1/2))) from by ring,
        abs_mul, abs_of_pos (by norm_num : (0:ℚ) < 255)]
      linarith
    calc |((jround (255 * (L3v + C3v * (t3 - 1/2))) : ℤ) : ℚ) - (orig : ℚ)|
        ≤ |((jround (255 * (L3v + C3v * (t3 - 1/2))) : ℤ) : ℚ)
            - 255 * (L3v + C3v * (t3 - 1/2))|
          + |255 * (L3v + C3v * (t3 - 1/2)) - (orig : ℚ)| := by
          have := abs_add
            (((jround (255 * (L3v + C3v * (t3 - 1/2))) : ℤ) : ℚ)
              - 255 * (L3v + C3v * (t3 - 1/2)))
            (255 * (L3v + C3v * (t3 - 1/2)) - (orig : ℚ))
          simpa using this
      _ ≤ 1/2 + 255 * (29/600) := add_le_add hround h255F
  have hlt13 : |((jround (255 * (L3v + C3v * (t3 - 1/2))) - orig : ℤ) : ℚ)| < 13 := by
    push_cast
    calc |((jround (255 * (L3v + C3v * (t3 - 1/2))) : ℤ) : ℚ) - (orig : ℚ)|
        ≤ 1/2 + 255 * (29/600) := htotal
      _ < 13 := by norm_num
  have hc13 : ((|jround (255 * (L3v + C3v * (t3 - 1/2))) - orig| : ℤ) : ℚ) < 13 := by
    rw [Int.cast_abs]
    exact hlt13
  have : |jround (255 * (L3v + C3v * (t3 - 1/2))) - orig| < 13 := by
    exact_mod_cast hc13
  omega

set_option maxHeartbeats 1600000 in
/-- C2 (amended): the four-stage round trip reproduces every channel within
±12 (the worst case observed is 8; the claimed ±1 fails, see the
counterexample). -/
theorem C2_roundtrip_bound (r g b : ℤ)
    (hr0 : 0 ≤ r) (hr1 : r ≤ 255) (hg0 : 0 ≤ g) (hg1 : g ≤ 255)
    (hb0 : 0 ≤ b) (hb1 : b ≤ 255) :
    |(roundTrip r g b).1 - r| ≤ 12 ∧
    |(roundTrip r g b).2.1 - g| ≤ 12 ∧
    |(roundTrip r g b).2.2 - b| ≤ 12 := by
  obtain ⟨Hq, Sq, Lq, hA, hSq0, hSq1, hLq0, hLq1, hHq0, hHq1, hRid, hGid, hBid⟩ :=
    rgbStageA r g b hr0 hr1 hg0 hg1 hb0 hb1
  obtain ⟨hCC0, hCC1⟩ := chromaOf_mem Sq Lq hSq0 hSq1 hLq0 hLq1
  simp only [roundTrip]
  rw [hA]
  dsimp only
  set hZ : ℤ := jround (Hq * 60) with hhZd
  set sZ : ℤ := jround (Sq * 100) with hsZd
  set lZ : ℤ := jround (Lq * 100) with hlZd
  have hhZlo : -60 ≤ hZ := le_jround (by push_cast; linarith)
  have hhZhi : hZ ≤ 300 := jround_le (by push_cast; linarith)
  have hsZ0 : (0 : ℤ) ≤ sZ := le_jround (by push_cast; linarith)
  have hsZ1 : sZ ≤ 100 := jround_le (by push_cast; linarith)
  have hlZ0 : (0 : ℤ) ≤ lZ := le_jround (by push_cast; linarith)
  have hlZ1 : lZ ≤ 100 := jround_le (by push_cast; linarith)
  set S1 : ℚ := ((sZ : ℤ) : ℚ) / 100 with hS1d
  set L1 : ℚ := ((lZ : ℤ) : ℚ) / 100 with hL1d
  have eS1 : |S1 - Sq| ≤ 1/200 := by
    rw [hS1d, hsZd]
    exact jround_pct_err Sq
  have eL1 : |L1 - Lq| ≤ 1/200 := by
    rw [hL1d, hlZd]
    exact jround_pct_err Lq
  have hS10 : 0 ≤ S1 := by
    rw [hS1d]
    exact div_nonneg (by exact_mod_cast hsZ0) (by norm_num)
  have hS11 : S1 ≤ 1 := by
    rw [hS1d, div_le_one (by norm_num : (0:ℚ) < 100)]
    exact_mod_cast hsZ1
  have hL10 : 0 ≤ L1 := by
    rw [hL1d]
    exact div_nonneg (by exact_mod_cast hlZ0) (by norm_num)
  have hL11 : L1 ≤ 1 := by
    rw [hL1d, div_le_one (by norm_num : (0:ℚ) < 100)]
    exact_mod_cast hlZ1
  have habsL1 : |2 * L1 - 1| ≤ 1 := abs_le.mpr ⟨by linarith, by linarith⟩
  set b1 : ℚ := (2 * L1 + S1 * (1 - |2 * L1 - 1|)) / 2 with hb1d
  have hb1L : L1 ≤ b1 := by
    rw [hb1d]
    nlinarith [mul_nonneg hS10 (by linarith : (0:ℚ) ≤ 1 - |2 * L1 - 1|)]
  have hb1nn : 0 ≤ b1 := le_trans hL10 hb1L
  have hb1Chr : b1 = L1 + chromaOf S1 L1 / 2 := by
    rw [hb1d, chromaOf]
    ring
  have hb1le1 : b1 ≤ 1 := by
    rw [hb1d]
    rcases abs_cases (2 * L1 - 1) with ⟨he, hc⟩ | ⟨he, hc⟩ <;> rw [he] <;> nlinarith
  have hb2L : b1 ≤ 2 * L1 := by
    rw [hb1d]
    rcases abs_cases (2 * L1 - 1) with ⟨he, hc⟩ | ⟨he, hc⟩ <;> rw [he] <;> nlinarith
  have eC1 : |chromaOf S1 L1 - chromaOf Sq Lq| ≤ 3/200 := by
    have := chromaOf_close S1 L1 Sq Lq (1/200) (1/200) hSq0 hSq1 hL10 hL11 eS1 eL1
    linarith
  by_cases hbz : b1 = 0
  · -- brightness-zero path: everything collapses to black
    have hY : ColorConvert.HSLToHSB (((hZ : ℤ) : ℚ)/60) S1 L1 = (0, 0, 0) := by
      simp only [ColorConvert.HSLToHSB]
      rw [← hb1d, if_pos hbz]
    rw [hY]
    dsimp only
    have hZ2 : ColorConvert.HSBToHSL ((0:ℚ)/60) ((0:ℚ)/100) ((0:ℚ)/100) = (0, 0, 0) := by
      norm_num [ColorConvert.HSBToHSL]
    rw [hZ2]
    dsimp only
    have hRGB : hslToRgb 0 0 0 = (0, 0, 0) := by
      norm_num [hslToRgb, clampQ, jround]
    rw [hRGB]
    dsimp only
    have hL1z : L1 = 0 := by
      have h1 : 0 ≤ S1 * (1 - |2 * L1 - 1|) := mul_nonneg hS10 (by linarith)
      have h2 : (2 * L1 + S1 * (1 - |2 * L1 - 1|)) / 2 = 0 := by rw [← hb1d]; exact hbz
      linarith
    have hLqs : Lq ≤ 1/200 := by
      have := (abs_le.mp eL1).1
      linarith [hL1z]
    have hCC2L : chromaOf Sq Lq ≤ 2 * Lq := by
      rw [chromaOf]
      have habsLq : |2 * Lq - 1| ≤ 1 := abs_le.mpr ⟨by linarith, by linarith⟩
      have h1 : 1 - 2 * Lq ≤ |2 * Lq - 1| := by
        calc 1 - 2 * Lq ≤ |1 - 2 * Lq| := le_abs_self _
          _ = |2 * Lq - 1| := by rw [abs_sub_comm]
      exact le_trans (mul_le_of_le_one_right (by linarith) hSq1) (by linarith)
    have hsmall : ∀ (t : ℚ) (o : ℤ), 0 ≤ t → t ≤ 1 →
        255 * (Lq + chromaOf Sq Lq * (t - 1/2)) = (o : ℚ) → 0 ≤ o →
        |(0 : ℤ) - o| ≤ 12 := by
      intro t o ht0 ht1 hid ho0
      have hCt : chromaOf Sq Lq * (t - 1/2) ≤ chromaOf Sq Lq * (1/2) :=
        mul_le_mul_of_nonneg_left (by linarith) hCC0
      have hoq : (o : ℚ) ≤ 51/20 := by
        rw [← hid]
        nlinarith
      have ho3 : o < 3 := by exact_mod_cast lt_of_le_of_lt hoq (by norm_num : (51:ℚ)/20 < 3)
      rw [zero_sub, abs_neg, abs_of_nonneg ho0]
      omega
    exact ⟨hsmall _ r (tR_mem _).1 (tR_mem _).2 hRid hr0,
      hsmall _ g (tG_mem _).1 (tG_mem _).2 hGid hg0,
      hsmall _ b (tB_mem _).1 (tB_mem _).2 hBid hb0⟩
  · have hb1pos : 0 < b1 := lt_of_le_of_ne hb1nn (Ne.symm hbz)
    set s1 : ℚ := 2 * (b1 - L1) / b1 with hs1d
    have hs10 : 0 ≤ s1 := by
      rw [hs1d]
      exact div_nonneg (by linarith) hb1pos.le
    have hs11 : s1 ≤ 1 := by
      rw [hs1d, div_le_one hb1pos]
      linarith
    have hs1C : b1 * s1 = chromaOf S1 L1 := by
      rw [hs1d, mul_comm, div_mul_cancel₀ _ hbz, chromaOf, hb1d]
      ring
    set s1r : ℤ := jround (s1 * 100) with hs1rd
    set b1r : ℤ := jround (b1 * 100) with hb1rd
    have hs1r0 : (0:ℤ) ≤ s1r := by
      rw [hs1rd]
      exact le_jround (by push_cast; linarith)
    have hs1r1 : s1r ≤ 100 := by
      rw [hs1rd]
      exact jround_le (by push_cast; linarith)
    have hb1r0 : (0:ℤ) ≤ b1r := by
      rw [hb1rd]
      exact le_jround (by push_cast; linarith)
    have hb1r1 : b1r ≤ 100 := by
      rw [hb1rd]
      exact jround_le (by push_cast; linarith)
    have hY : ColorConvert.HSLToHSB (((hZ : ℤ) : ℚ)/60) S1 L1
        = (((hZ : ℤ) : ℚ), ((s1r : ℤ) : ℚ), ((b1r : ℤ) : ℚ)) := by
      simp only [ColorConvert.HSLToHSB]
      rw [← hb1d, if_neg hbz, ← hs1d, ← hs1rd, ← hb1rd,
        show ((hZ : ℤ) : ℚ)/60 * 60 = ((hZ : ℤ) : ℚ) from
          div_mul_cancel₀ _ (by norm_num), jround_intCast]
    rw [hY]
    dsimp only
    set S2 : ℚ := ((s1r : ℤ) : ℚ) / 100 with hS2d
    set B2 : ℚ := ((b1r : ℤ) : ℚ) / 100 with hB2d
    have eS2 : |S2 - s1| ≤ 1/200 := by
      rw [hS2d, hs1rd]
      exact jround_pct_err s1
    have eB2 : |B2 - b1| ≤ 1/200 := by
      rw [hB2d, hb1rd]
      exact jround_pct_err b1
    have hS20 : 0 ≤ S2 := by
      rw [hS2d]
      exact div_nonneg (by exact_mod_cast hs1r0) (by norm_num)
    have hS21 : S2 ≤ 1 := by
      rw [hS2d, div_le_one (by norm_num : (0:ℚ) < 100)]
      exact_mod_cast hs1r1
    have hB20 : 0 ≤ B2 := by
      rw [hB2d]
      exact div_nonneg (by exact_mod_cast hb1r0) (by norm_num)
    have hB21 : B2 ≤ 1 := by
      rw [hB2d, div_le_one (by norm_num : (0:ℚ) < 100)]
      exact_mod_cast hb1r1
    set l2 : ℚ := 1/2 * B2 * (2 - S2) with hl2d
    have hl20 : 0 ≤ l2 := by
      rw [hl2d]
      exact mul_nonneg (mul_nonneg (by norm_num) hB20) (by linarith)
    have hl21 : l2 ≤ 1 := by
      rw [hl2d]
      nlinarith [mul_nonneg hB20 hS20, hB21]
    have hl2C : l2 = B2 - B2 * S2 / 2 := by
      rw [hl2d]
      ring
    have eC2 : |B2 * S2 - chromaOf S1 L1| ≤ 2/200 := by
      have h := mul_close B2 S2 b1 s1 (1/200) (1/200)
        (abs_le.mpr ⟨by linarith, by linarith⟩)
        (abs_le.mpr ⟨by linarith, by linarith⟩) eB2 eS2
      rw [← hs1C]
      linarith
    have eC2' : |B2 * S2 - chromaOf Sq Lq| ≤ 5/200 := by
      calc |B2 * S2 - chromaOf Sq Lq|
          ≤ |B2 * S2 - chromaOf S1 L1| + |chromaOf S1 L1 - chromaOf Sq Lq| :=
            abs_sub_le _ _ _
        _ ≤ 5/200 := by linarith
    have el2 : |l2 - Lq| ≤ 3/200 := by
      have hdec : l2 - Lq = (B2 - b1) - (B2 * S2 - chromaOf S1 L1)/2 + (L1 - Lq) := by
        rw [hl2C, hb1Chr]
        ring
      have h2 : |(B2 * S2 - chromaOf S1 L1)/2| ≤ 1/200 := by
        rw [abs_div, show |(2:ℚ)| = 2 from by norm_num]
        linarith
      have h1 : |(B2 - b1) - (B2 * S2 - chromaOf S1 L1)/2| ≤ 2/200 :=
        le_trans (abs_sub _ _) (by linarith)
      rw [hdec]
      exact le_trans (abs_add _ _) (by linarith)
    by_cases hc1 : (S2 = 0 ∨ (1 - |2 * (1/2 * B2 * (2 - S2)) - 1| = 0 ∧ B2 * S2 = 0))
        ∧ B2 = 1
    · -- white branch of stage C
      have hZ2 : ColorConvert.HSBToHSL (((hZ : ℤ) : ℚ)/60) S2 B2
          = (((hZ : ℤ) : ℚ), 0, 100) := by
        simp only [ColorConvert.HSBToHSL]
        rw [if_pos hc1, show ((hZ : ℤ) : ℚ)/60 * 60 = ((hZ : ℤ) : ℚ) from
          div_mul_cancel₀ _ (by norm_num)]
      rw [hZ2]
      dsimp only
      have hRGBw : hslToRgb (((hZ : ℤ) : ℚ)) 0 100 = (255, 255, 255) := by
        rw [hslToRgb_eq]
        have hcc : chromaOf ((0:ℚ)/100) ((100:ℚ)/100) = 0 := by
          rw [chromaOf]
          norm_num
        rw [hcc]
        refine congrArg₂ Prod.mk ?_ (congrArg₂ Prod.mk ?_ ?_) <;>
          · rw [zero_mul, add_zero, show (255:ℚ) * ((100:ℚ)/100) = ((255:ℤ) : ℚ) from
              by norm_num, jround_intCast]
      rw [hRGBw]
      dsimp only
      have hS2z : S2 = 0 := by
        rcases hc1.1 with h | ⟨-, hBS⟩
        · exact h
        · have hB21e : B2 = 1 := hc1.2
          rw [hB21e, one_mul] at hBS
          exact hBS
      have hs1small : s1 ≤ 1/200 := by
        have := (abs_le.mp eS2).1
        rw [hS2z] at this
        linarith
      have hC1small : chromaOf S1 L1 ≤ 1/200 := by
        rw [← hs1C]
        exact le_trans (mul_le_of_le_one_left hs10 hb1le1) hs1small
      have hCCsmall : chromaOf Sq Lq ≤ 4/200 := by
        have := (abs_le.mp eC1).1
        linarith
      have hB21e : B2 = 1 := hc1.2
      have hbstar : 1 - 7/400 ≤ Lq + chromaOf Sq Lq / 2 := by
        have h1 := (abs_le.mp eB2).2
        have hb1big : 1 - 1/200 ≤ b1 := by
          rw [hB21e] at h1
          linarith
        rw [hb1Chr] at hb1big
        have h2 := abs_le.mp eL1
        have h3 := abs_le.mp eC1
        linarith
      have hbig : ∀ (t : ℚ) (o : ℤ), 0 ≤ t → t ≤ 1 →
          255 * (Lq + chromaOf Sq Lq * (t - 1/2)) = (o : ℚ) → o ≤ 255 →
          |(255 : ℤ) - o| ≤ 12 := by
        intro t o ht0 ht1 hid ho255
        have hCt : chromaOf Sq Lq * (-(1/2)) ≤ chromaOf Sq Lq * (t - 1/2) :=
          mul_le_mul_of_nonneg_left (by linarith) hCC0
        have hoq : (245 : ℚ) ≤ (o : ℚ) := by
          rw [← hid]
          linarith
        have ho245 : 245 ≤ o := by exact_mod_cast hoq
        rw [abs_of_nonneg (by omega : (0:ℤ) ≤ 255 - o)]
        omega
      exact ⟨hbig _ r (tR_mem _).1 (tR_mem _).2 hRid hr1,
        hbig _ g (tG_mem _).1 (tG_mem _).2 hGid hg1,
        hbig _ b (tB_mem _).1 (tB_mem _).2 hBid hb1⟩
    · by_cases hc2 : (S2 = 0 ∨ (1 - |2 * (1/2 * B2 * (2 - S2)) - 1| = 0 ∧ B2 * S2 = 0))
          ∧ B2 = 0
      · -- black branch of stage C
        have hZ2 : ColorConvert.HSBToHSL (((hZ : ℤ) : ℚ)/60) S2 B2
            = (((hZ : ℤ) : ℚ), 0, 0) := by
          simp only [ColorConvert.HSBToHSL]
          rw [if_neg hc1, if_pos hc2, show ((hZ : ℤ) : ℚ)/60 * 60 = ((hZ : ℤ) : ℚ) from
            div_mul_cancel₀ _ (by norm_num)]
        rw [hZ2]
        dsimp only
        have hRGBk : hslToRgb (((hZ : ℤ) : ℚ)) 0 0 = (0, 0, 0) := by
          rw [hslToRgb_eq]
          have hcc : chromaOf ((0:ℚ)/100) ((0:ℚ)/100) = 0 := by
            rw [chromaOf]
            norm_num
          rw [hcc]
          refine congrArg₂ Prod.mk ?_ (congrArg₂ Prod.mk ?_ ?_) <;>
            · rw [zero_mul, add_zero, show (255:ℚ) * ((0:ℚ)/100) = ((0:ℤ) : ℚ) from
                by norm_num, jround_intCast]
        rw [hRGBk]
        dsimp only
        have hB2z : B2 = 0 := hc2.2
        have hb1small : b1 ≤ 1/200 := by
          have := (abs_le.mp eB2).1
          rw [hB2z] at this
          linarith
        have hbstar : Lq + chromaOf Sq Lq / 2 ≤ 7/400 := by
          rw [hb1Chr] at hb1small
          have h2 := abs_le.mp eL1
          have h3 := abs_le.mp eC1
          linarith
        have hsmall : ∀ (t : ℚ) (o : ℤ), 0 ≤ t → t ≤ 1 →
            255 * (Lq + chromaOf Sq Lq * (t - 1/2)) = (o : ℚ) → 0 ≤ o →
            |(0 : ℤ) - o| ≤ 12 := by
          intro t o ht0 ht1 hid ho0
          have hCt : chromaOf Sq Lq * (t - 1/2) ≤ chromaOf Sq Lq * (1/2) :=
            mul_le_mul_of_nonneg_left (by linarith) hCC0
          have hoq : (o : ℚ) ≤ 5 := by
            rw [← hid]
            linarith
          have ho5 : o ≤ 5 := by exact_mod_cast hoq
          rw [zero_sub, abs_neg, abs_of_nonneg ho0]
          omega
        exact ⟨hsmall _ r (tR_mem _).1 (tR_mem _).2 hRid hr0,
          hsmall _ g (tG_mem _).1 (tG_mem _).2 hGid hg0,
          hsmall _ b (tB_mem _).1 (tB_mem _).2 hBid hb0⟩
      · -- main branch of stage C
        have hdiv : 0 < 1 - |2 * l2 - 1| := by
          have h := hsbDivisorPos S2 B2 hS20 hS21 hB20 hB21 hc1 hc2
          rw [← hl2d] at h
          exact h
        set s2 : ℚ := B2 * S2 / (1 - |2 * l2 - 1|) with hs2d
        have hs20 : 0 ≤ s2 := by
          rw [hs2d]
          exact div_nonneg (mul_nonneg hB20 hS20) hdiv.le
        have hs21 : s2 ≤ 1 := by
          rw [hs2d, div_le_one hdiv]
          have hl2e : l2 = 1/2 * B2 * (2 - S2) := hl2d
          rcases abs_cases (2 * l2 - 1) with ⟨he, hc⟩ | ⟨he, hc⟩ <;> rw [he, hl2e]
          · linarith [mul_nonneg hB20 hS20]
          · linarith [mul_nonneg hB20 (by linarith : (0:ℚ) ≤ 1 - S2)]
        have hs2C : s2 * (1 - |2 * l2 - 1|) = B2 * S2 := by
          rw [hs2d]
          exact div_mul_cancel₀ _ hdiv.ne'
        set s2r : ℤ := jround (s2 * 100) with hs2rd
        set l2r : ℤ := jround (l2 * 100) with hl2rd
        have hs2r0 : (0:ℤ) ≤ s2r := by
          rw [hs2rd]
          exact le_jround (by push_cast; linarith)
        have hs2r1 : s2r ≤ 100 := by
          rw [hs2rd]
          exact jround_le (by push_cast; linarith)
        have hl2r0 : (0:ℤ) ≤ l2r := by
          rw [hl2rd]
          exact le_jround (by push_cast; linarith)
        have hl2r1 : l2r ≤ 100 := by
          rw [hl2rd]
          exact jround_le (by push_cast; linarith)
        have hZ2 : ColorConvert.HSBToHSL (((hZ : ℤ) : ℚ)/60) S2 B2
            = (((hZ : ℤ) : ℚ), ((s2r : ℤ) : ℚ), ((l2r : ℤ) : ℚ)) := by
          simp only [ColorConvert.HSBToHSL]
          rw [if_neg hc1, if_neg hc2, ← hl2d, ← hs2d, ← hs2rd, ← hl2rd,
            show ((hZ : ℤ) : ℚ)/60 * 60 = ((hZ : ℤ) : ℚ) from
              div_mul_cancel₀ _ (by norm_num), jround_intCast]
        rw [hZ2]
        dsimp only
        rw [hslToRgb_eq, hueModOfInt hZ hhZlo hhZhi]
        set S3 : ℚ := ((s2r : ℤ) : ℚ) / 100 with hS3d
        set L3 : ℚ := ((l2r : ℤ) : ℚ) / 100 with hL3d
        have eS3 : |S3 - s2| ≤ 1/200 := by
          rw [hS3d, hs2rd]
          exact jround_pct_err s2
        have eL3 : |L3 - l2| ≤ 1/200 := by
          rw [hL3d, hl2rd]
          exact jround_pct_err l2
        have hL30 : 0 ≤ L3 := by
          rw [hL3d]
          exact div_nonneg (by exact_mod_cast hl2r0) (by norm_num)
        have hL31 : L3 ≤ 1 := by
          rw [hL3d, div_le_one (by norm_num : (0:ℚ) < 100)]
          exact_mod_cast hl2r1
        have hL3close : |L3 - Lq| ≤ 4/200 := by
          calc |L3 - Lq| ≤ |L3 - l2| + |l2 - Lq| := abs_sub_le _ _ _
            _ ≤ 4/200 := by linarith
        have hChr2 : chromaOf s2 l2 = B2 * S2 := by
          rw [chromaOf, mul_comm]
          exact hs2C
        have eC3 : |chromaOf S3 L3 - chromaOf s2 l2| ≤ 3/200 := by
          have := chromaOf_close S3 L3 s2 l2 (1/200) (1/200) hs20 hs21 hL30 hL31 eS3 eL3
          linarith
        have eC3' : |chromaOf S3 L3 - chromaOf Sq Lq| ≤ 8/200 := by
          calc |chromaOf S3 L3 - chromaOf Sq Lq|
              ≤ |chromaOf S3 L3 - chromaOf s2 l2| + |chromaOf s2 l2 - chromaOf Sq Lq| :=
                abs_sub_le _ _ _
            _ ≤ 8/200 := by
                rw [hChr2] at eC3 ⊢
                linarith [eC3, eC2']
        obtain ⟨etR, etG, etB⟩ := tents_close Hq hZ hHq0 hHq1 hhZd
        exact ⟨channel_bound L3 Lq (chromaOf S3 L3) (chromaOf Sq Lq) _ _ r hRid
            hL3close eC3' etR (tR_mem _).1 (tR_mem _).2 hCC0 hCC1,
          channel_bound L3 Lq (chromaOf S3 L3) (chromaOf Sq Lq) _ _ g hGid
            hL3close eC3' etG (tG_mem _).1 (tG_mem _).2 hCC0 hCC1,
          channel_bound L3 Lq (chromaOf S3 L3) (chromaOf Sq Lq) _ _ b hBid
            hL3close eC3' etB (tB_mem _).1 (tB_mem _).2 hCC0 hCC1⟩

/-- C2 (counterexample to the literal claim): the round-trip of the pure red
sliver `(2,0,0)` returns `(0,0,0)` — `RGBtoHSL` rounds its lightness to `0%`,
`HSLToHSB` then collapses the colour to black — so the red channel moves by 2,
beyond the claimed `±1`. -/
theorem C2_counterexample :
    roundTrip 2 0 0 = (0, 0, 0) ∧ ¬ (|(0 : ℤ) - 2| ≤ 1) := by
  constructor
  · norm_num [roundTrip, ColorConvert.RGBtoHSL, ColorConvert.HSLToHSB,
      ColorConvert.HSBToHSL, hslToRgb, clampQ, jround, max_def, min_def]
  · decide

/-- Closed witness for C2 (amended): the `±12` round-trip bound instantiated
at the concrete triple `(10,20,30)`. -/
theorem C2_roundtrip_bound_witness :
    ((0:ℤ) ≤ 10 ∧ (10:ℤ) ≤ 255 ∧ (0:ℤ) ≤ 20 ∧ (20:ℤ) ≤ 255 ∧
      (0:ℤ) ≤ 30 ∧ (30:ℤ) ≤ 255) ∧
    (|(roundTrip ((10:ℤ) : ℚ) ((20:ℤ) : ℚ) ((30:ℤ) : ℚ)).1 - 10| ≤ 12 ∧
     |(roundTrip ((10:ℤ) : ℚ) ((20:ℤ) : ℚ) ((30:ℤ) : ℚ)).2.1 - 20| ≤ 12 ∧
     |(roundTrip ((10:ℤ) : ℚ) ((20:ℤ) : ℚ) ((30:ℤ) : ℚ)).2.2 - 30| ≤ 12) :=
  ⟨⟨by decide, by decide, by decide, by decide, by decide, by decide⟩,
   C2_roundtrip_bound 10 20 30 (by decide) (by decide) (by decide) (by decide)
     (by decide) (by decide)⟩
